import Mathlib

/-!
Cube: point sampling, orbit camera, frustum uniforms and the render passes.

A shallow embedding of `src/main.cpp`.  Floating point values are embedded in an
arbitrary linear ordered field `K` (exact arithmetic); the libm functions
(`sqrt`, `tan`, `sinf`, `cosf`) and the constant `M_PI` are parameters of the
definitions that use them.  The process-global random generator is an explicit
stream of draws threaded through the samplers.  OpenGL is embedded as a record of
the fixed-function state the program touches plus a log of the draw calls issued.
-/

namespace Cube

/-! ## Vectors and the random source -/

/-- A `glm::vec3`. -/
structure Vec3 (K : Type) where
  x : K
  y : K
  z : K
deriving DecidableEq, Repr

/-- The random source: `draws n` is the value of the `n`-th evaluation of
`rand() / double(RAND_MAX)` and `pos` counts the evaluations made so far. -/
structure RandSource (K : Type) where
  draws : Nat → K
  pos : Nat

/-- One evaluation of `rand() / double(RAND_MAX)`. -/
def RandSource.next {K : Type} (r : RandSource K) : K × RandSource K :=
  (r.draws r.pos, { r with pos := r.pos + 1 })

/-! ## `pickPoint` (main.cpp 61-82) -/

/-- The weights `(a, b, c)` of `pickPoint` after lines 70-75: the pair is
reflected when `a + b > 1`, and `c = 1 - a - b`. -/
def pickWeights {K : Type} [LinearOrderedField K] (a b : K) : K × K × K :=
  let ab : K × K := if a + b > 1 then (1 - a, 1 - b) else (a, b)
  let c : K := 1 - ab.1 - ab.2
  (ab.1, ab.2, c)

/-- The body of `pickPoint`: two draws, the fold, the weighted combination. -/
def pickPoint {K : Type} [LinearOrderedField K] (v1 v2 v3 : Vec3 K)
    (rng : RandSource K) : Vec3 K × RandSource K :=
  let (a0, rng1) := rng.next
  let (b0, rng2) := rng1.next
  let (a, b, c) := pickWeights a0 b0
  ({ x := (a * v1.x) + (b * v2.x) + (c * v3.x)
     y := (a * v1.y) + (b * v2.y) + (c * v3.y)
     z := (a * v1.z) + (b * v2.z) + (c * v3.z) }, rng2)


/-! ## Point clouds: `struct vao` and the two samplers (main.cpp 90-148) -/

/-- An OpenGL enumerant. -/
abbrev GLenum := Nat

/-- The primitive kind `GL_POINTS`. -/
def GL_POINTS : GLenum := 0

/-- The primitive kind `GL_TRIANGLES`. -/
def GL_TRIANGLES : GLenum := 4

/-- Modelled from the spec: `struct vao` is declared in `vao.h`, which is not
among the sources.  The fields are those `main.cpp` reads and writes (positions,
colours and normals of the spec's point cloud and source mesh, the two counters
and the primitive mode).  The counters are unbounded integers; `mode` is `none`
until it is assigned. -/
structure vao (K : Type) where
  vertices : List (Vec3 K)
  colors : List (Vec3 K)
  normals : List (Vec3 K)
  numOfTriangles : Int
  numOfVertices : Int
  mode : Option GLenum
deriving DecidableEq, Repr

/-- The constant `POINTS_PER_TRIANGLE`. -/
def POINTS_PER_TRIANGLE : Nat := 500

/-- The constant `POINTS_PER_SPHERA`. -/
def POINTS_PER_SPHERA : Nat := 2000

/-- The inner loop of `sampleMesh` (lines 99-105) for triangle `i`, with `n`
iterations left.  Reading a source array out of range gives `none`. -/
def sampleMeshInner {K : Type} [LinearOrderedField K] (mesh : vao K) (i : Nat) :
    Nat → vao K × RandSource K → Option (vao K × RandSource K)
  | 0, st => some st
  | n + 1, (out, rng) =>
    let line := i * 3
    match mesh.vertices[line]?, mesh.vertices[line + 1]?, mesh.vertices[line + 2]?,
        mesh.colors[line]?, mesh.normals[i]? with
    | some v1, some v2, some v3, some c, some nrm =>
      let (p, rng1) := pickPoint v1 v2 v3 rng
      sampleMeshInner mesh i n
        ({ out with
            vertices := out.vertices ++ [p]
            colors := out.colors ++ [c]
            normals := out.normals ++ [nrm]
            numOfVertices := out.numOfVertices + 1 }, rng1)
    | _, _, _, _, _ => none

/-- The outer loop of `sampleMesh` (lines 98-106): triangle index `i`, with `r`
triangles left, `N` samples for each. -/
def sampleMeshOuter {K : Type} [LinearOrderedField K] (N : Nat) (mesh : vao K) :
    Nat → Nat → vao K × RandSource K → Option (vao K × RandSource K)
  | _, 0, st => some st
  | i, r + 1, st =>
    match sampleMeshInner mesh i N st with
    | some st1 => sampleMeshOuter N mesh (i + 1) r st1
    | none => none

/-- The function `sampleMesh` with the per-triangle sample count as the argument `N`. -/
def sampleMeshN {K : Type} [LinearOrderedField K] (N : Nat) (mesh : vao K)
    (rng : RandSource K) : Option (vao K × RandSource K) :=
  let sampledMesh : vao K :=
    { vertices := [], colors := [], normals := [],
      numOfTriangles := 0, numOfVertices := 0, mode := none }
  match sampleMeshOuter N mesh 0 mesh.numOfTriangles.toNat (sampledMesh, rng) with
  | some (out, rng1) => some ({ out with mode := some GL_POINTS }, rng1)
  | none => none

/-- The function `sampleMesh` as compiled: `POINTS_PER_TRIANGLE` samples for each triangle. -/
def sampleMesh {K : Type} [LinearOrderedField K] (mesh : vao K)
    (rng : RandSource K) : Option (vao K × RandSource K) :=
  sampleMeshN POINTS_PER_TRIANGLE mesh rng

/-- The function `glm::normalize`: the vector times the inverse square root of its
squared length. -/
def normalize {K : Type} [LinearOrderedField K] (sqrt : K → K) (v : Vec3 K) : Vec3 K :=
  let s : K := 1 / sqrt (v.x * v.x + v.y * v.y + v.z * v.z)
  { x := v.x * s, y := v.y * s, z := v.z * s }

/-- The rejection loop of `sampleSphere` (lines 128-129): `y` is redrawn while
`sqrt(x^2 + y^2) > 1`.  `fuel` bounds the number of redraws; `none` when it runs out. -/
def rejectLoop {K : Type} [LinearOrderedField K] (sqrt : K → K) (x : K) :
    Nat → K → RandSource K → Option (K × RandSource K)
  | 0, y, rng => if sqrt (x ^ 2 + y ^ 2) > 1 then none else some (y, rng)
  | fuel + 1, y, rng =>
    if sqrt (x ^ 2 + y ^ 2) > 1 then
      let (u, rng1) := rng.next
      rejectLoop sqrt x fuel (u * 2 - 1) rng1
    else some (y, rng)

/-- One iteration of the `for` loop of `sampleSphere` (lines 125-143). -/
def sampleSphereStep {K : Type} [LinearOrderedField K] (sqrt : K → K) (fuel : Nat)
    (st : vao K × RandSource K) : Option (vao K × RandSource K) :=
  let (ux, rng1) := st.2.next
  let x : K := ux * 2 - 1
  let (uy, rng2) := rng1.next
  let y0 : K := uy * 2 - 1
  match rejectLoop sqrt x fuel y0 rng2 with
  | none => none
  | some (y, rng3) =>
    let z : K := sqrt (1 - x ^ 2 - y ^ 2)
    let out := st.1
    some ({ out with
            vertices := out.vertices ++ [⟨x, y, z⟩, ⟨x, y, -z⟩]
            normals := out.normals ++ [normalize sqrt ⟨x, y, z⟩, normalize sqrt ⟨x, y, -z⟩]
            colors := out.colors ++ [⟨0, 0, 1⟩, ⟨1, 0, 0⟩]
            numOfVertices := out.numOfVertices + 2 }, rng3)

/-- The `for` loop of `sampleSphere` with `n` iterations left. -/
def sampleSphereLoop {K : Type} [LinearOrderedField K] (sqrt : K → K) (fuel : Nat) :
    Nat → vao K × RandSource K → Option (vao K × RandSource K)
  | 0, st => some st
  | n + 1, st =>
    match sampleSphereStep sqrt fuel st with
    | some st1 => sampleSphereLoop sqrt fuel n st1
    | none => none

/-- The function `sampleSphere` with the iteration count as the argument `N`. -/
def sampleSphereN {K : Type} [LinearOrderedField K] (sqrt : K → K) (fuel N : Nat)
    (rng : RandSource K) : Option (vao K × RandSource K) :=
  let sampledSphere : vao K :=
    { vertices := [], colors := [], normals := [],
      numOfTriangles := 0, numOfVertices := 0, mode := none }
  sampleSphereLoop sqrt fuel N (sampledSphere, rng)

/-- The function `sampleSphere` as compiled: `POINTS_PER_SPHERA` iterations. -/
def sampleSphere {K : Type} [LinearOrderedField K] (sqrt : K → K) (fuel : Nat)
    (rng : RandSource K) : Option (vao K × RandSource K) :=
  sampleSphereN sqrt fuel POINTS_PER_SPHERA rng

/-- The random source of the scenario of the spec: the first draw gives `x = 0.6`,
every later draw gives `y = 0`. -/
def scenarioSource (K : Type) [LinearOrderedField K] : RandSource K :=
  { draws := fun n => if n = 0 then 0.8 else 0.5, pos := 0 }

/-- A one-triangle mesh with three distinct vertex colours. -/
def demoMesh : vao ℚ :=
  { vertices := [⟨0, 0, 0⟩, ⟨1, 0, 0⟩, ⟨0, 1, 0⟩]
    colors := [⟨1, 0, 0⟩, ⟨0, 1, 0⟩, ⟨0, 0, 1⟩]
    normals := [⟨0, 0, 1⟩]
    numOfTriangles := 1
    numOfVertices := 3
    mode := some GL_TRIANGLES }

/-- The first vertex of the demo triangle. -/
def demoV1 : Vec3 ℚ := ⟨0, 0, 0⟩

/-- The second vertex of the demo triangle. -/
def demoV2 : Vec3 ℚ := ⟨1, 0, 0⟩

/-- The third vertex of the demo triangle. -/
def demoV3 : Vec3 ℚ := ⟨0, 1, 0⟩

/-- A random source that alternates the draws `3/4` and `1/2`. -/
def demoSource : RandSource ℚ :=
  { draws := fun n => if n % 2 = 0 then 3 / 4 else 1 / 2, pos := 0 }

/-! ## Projection uniforms (main.cpp 151-178) -/

/-- The preprocessor definition `DEG_TO_RAD`. -/
def DEG_TO_RAD {K : Type} [LinearOrderedField K] (M_PI x : K) : K := x * (M_PI / 180.0)

/-- The scalar uniforms `updateProjMatrix` uploads, named after their locations. -/
structure FrustumUniforms (K : Type) where
  hViewport : Int
  wViewport : Int
  nearFrustum : K
  farFrustum : K
  topFrustum : K
  bottomFrustum : K
  leftFrustum : K
  rightFrustum : K

/-- The scalar part of `updateProjMatrix` for a window of size `w` by `h` (the
result of `glfwGetWindowSize`).  The matrix built by `glm::perspective` is not
embedded. -/
def updateProjMatrix {K : Type} [LinearOrderedField K] (tan : K → K) (M_PI : K)
    (w h : Int) : FrustumUniforms K :=
  let fovy : K := 53.13
  let near : K := 0.1
  let far : K := 100.0
  let h1 : Int := if h = 0 then 1 else h
  let ratio : K := (1.0 * (w : K)) / (h1 : K)
  let top : K := tan (0.5 * DEG_TO_RAD M_PI fovy) * near
  { hViewport := h1
    wViewport := w
    nearFrustum := near
    farFrustum := far
    topFrustum := -top
    bottomFrustum := top
    leftFrustum := -top * ratio
    rightFrustum := top * ratio }

/-! ## Orbit camera (main.cpp 196-253) -/

/-- The preprocessor definition `LESS_THAN`. -/
def LESS_THAN {K : Type} [LinearOrderedField K] (x limit : K) : K :=
  if x > limit then limit else x

/-- The preprocessor definition `GREATER_THAN`. -/
def GREATER_THAN {K : Type} [LinearOrderedField K] (x limit : K) : K :=
  if x < limit then limit else x

/-- Modelled from the spec: the camera globals, declared in `globals.h`, which is
not among the sources.  `cameraAngleX` is the azimuth, `cameraAngleY` the
elevation, `cameraEye` the derived eye position. -/
structure Camera (K : Type) where
  cameraAngleX : K
  cameraAngleY : K
  cameraDistance : K
  cameraEye : Vec3 K
  leftBtnPress : Bool
  lastMouseX : K
  lastMouseY : K

/-- The function `updateCameraPosition`. -/
def updateCameraPosition {K : Type} [LinearOrderedField K] (sinf cosf : K → K)
    (c : Camera K) : Camera K :=
  { c with
    cameraEye :=
      { x := c.cameraDistance * -sinf c.cameraAngleX * cosf c.cameraAngleY
        y := c.cameraDistance * -sinf c.cameraAngleY
        z := -c.cameraDistance * cosf c.cameraAngleX * cosf c.cameraAngleY } }

/-- The function `resetCameraPosition`. -/
def resetCameraPosition {K : Type} [LinearOrderedField K] (sinf cosf : K → K)
    (c : Camera K) : Camera K :=
  updateCameraPosition sinf cosf { c with cameraAngleX := 0, cameraAngleY := 0 }

/-- The function `scrollCallback`. -/
def scrollCallback {K : Type} [LinearOrderedField K] (sinf cosf : K → K)
    (c : Camera K) (_xoffset yoffset : K) : Camera K :=
  let d : K := c.cameraDistance - yoffset
  updateCameraPosition sinf cosf { c with cameraDistance := GREATER_THAN d 0.001 }

/-- The function `mousePosCallback`; `CAMERA_RPP` expands to `2*M_PI/1000.0`. -/
def mousePosCallback {K : Type} [LinearOrderedField K] (sinf cosf : K → K) (M_PI : K)
    (c : Camera K) (x y : K) : Camera K :=
  let c1 : Camera K :=
    if c.leftBtnPress = true then
      let ax : K := c.cameraAngleX + (c.lastMouseX - x) * 2 * M_PI / 1000.0
      let ay : K := c.cameraAngleY + (c.lastMouseY - y) * 2 * M_PI / 1000.0
      let ay1 : K := LESS_THAN ay (M_PI / 2.0)
      let ay2 : K := GREATER_THAN ay1 (-M_PI / 2.0)
      updateCameraPosition sinf cosf { c with cameraAngleX := ax, cameraAngleY := ay2 }
    else c
  { c1 with lastMouseX := x, lastMouseY := y }

/-- The GLFW constant `GLFW_MOUSE_BUTTON_LEFT`. -/
def GLFW_MOUSE_BUTTON_LEFT : Int := 0

/-- The GLFW constant `GLFW_RELEASE`. -/
def GLFW_RELEASE : Int := 0

/-- The GLFW constant `GLFW_PRESS`. -/
def GLFW_PRESS : Int := 1

/-- The function `mouseCallback`. -/
def mouseCallback {K : Type} (c : Camera K) (btn action : Int) : Camera K :=
  if btn = GLFW_MOUSE_BUTTON_LEFT then
    if action = GLFW_RELEASE then { c with leftBtnPress := false }
    else if action = GLFW_PRESS then { c with leftBtnPress := true }
    else c
  else c

/-- The input events that reach the camera: a pointer move, a mouse button
change, a scroll, and the `R` key (which calls `resetCameraPosition`). -/
inductive CameraEvent (K : Type) where
  | mousePos (x y : K)
  | mouseButton (btn action : Int)
  | scroll (xoffset yoffset : K)
  | reset

/-- Dispatch of one event to its callback. -/
def cameraStep {K : Type} [LinearOrderedField K] (sinf cosf : K → K) (M_PI : K)
    (c : Camera K) : CameraEvent K → Camera K
  | .mousePos x y => mousePosCallback sinf cosf M_PI c x y
  | .mouseButton btn action => mouseCallback c btn action
  | .scroll xoffset yoffset => scrollCallback sinf cosf c xoffset yoffset
  | .reset => resetCameraPosition sinf cosf c

/-- The camera after a sequence of events, oldest first. -/
def cameraRun {K : Type} [LinearOrderedField K] (sinf cosf : K → K) (M_PI : K)
    (c : Camera K) (evs : List (CameraEvent K)) : Camera K :=
  evs.foldl (cameraStep sinf cosf M_PI) c

/-- The camera predicate of the spec: elevation within a quarter turn, distance positive. -/
def CameraOk {K : Type} [LinearOrderedField K] (M_PI : K) (c : Camera K) : Prop :=
  -M_PI / 2 ≤ c.cameraAngleY ∧ c.cameraAngleY ≤ M_PI / 2 ∧ 0 < c.cameraDistance

/-- Whether an event is a scroll. -/
def CameraEvent.isScroll {K : Type} : CameraEvent K → Bool
  | .scroll _ _ => true
  | _ => false

/-- A camera at rest whose distance lies below the zoom floor `0.001`. -/
def nearCamera (K : Type) [LinearOrderedField K] : Camera K :=
  { cameraAngleX := 0
    cameraAngleY := 0
    cameraDistance := 0.0005
    cameraEye := ⟨0, 0, -0.0005⟩
    leftBtnPress := false
    lastMouseX := 0
    lastMouseY := 0 }

/-- A camera at rest at distance `3`, the left button held. -/
def demoCamera (K : Type) [LinearOrderedField K] : Camera K :=
  { cameraAngleX := 0
    cameraAngleY := 0
    cameraDistance := 3
    cameraEye := ⟨0, 0, -3⟩
    leftBtnPress := true
    lastMouseX := 0
    lastMouseY := 0 }

/-- A sequence of events: press the left button, drag far upwards, zoom in by
five units, release, reset. -/
def demoEvents (K : Type) [LinearOrderedField K] : List (CameraEvent K) :=
  [.mouseButton 0 1, .mousePos 0 (-1000), .scroll 0 5, .mouseButton 0 0, .reset]

/-! ## The render passes (main.cpp 302-312, 318-397) -/

/-- The depth comparison functions of `glDepthFunc`. -/
inductive DepthFunc where
  | GL_NEVER | GL_LESS | GL_EQUAL | GL_LEQUAL
  | GL_GREATER | GL_NOTEQUAL | GL_GEQUAL | GL_ALWAYS
deriving DecidableEq, Repr

/-- The fixed-function state `display` touches. -/
structure GLState where
  blend : Bool
  depthTest : Bool
  depthMask : Bool
  depthFunc : DepthFunc
  colorMask : Bool × Bool × Bool × Bool
deriving DecidableEq, Repr

/-- One `glDrawArrays` call, with the state it was issued under. -/
structure DrawCall where
  mode : Option GLenum
  first : Int
  count : Int
  state : GLState
deriving DecidableEq, Repr

/-- The GL context: the current state and the draw calls issued so far, oldest first. -/
structure GLContext where
  state : GLState
  draws : List DrawCall
deriving DecidableEq, Repr

/-- The capabilities `display` enables and disables. -/
inductive Cap where
  | GL_BLEND | GL_DEPTH_TEST
deriving DecidableEq, Repr

/-- The call `glEnable`. -/
def glEnable (cap : Cap) (g : GLContext) : GLContext :=
  match cap with
  | .GL_BLEND => { g with state := { g.state with blend := true } }
  | .GL_DEPTH_TEST => { g with state := { g.state with depthTest := true } }

/-- The call `glDisable`. -/
def glDisable (cap : Cap) (g : GLContext) : GLContext :=
  match cap with
  | .GL_BLEND => { g with state := { g.state with blend := false } }
  | .GL_DEPTH_TEST => { g with state := { g.state with depthTest := false } }

/-- The call `glDepthMask`. -/
def glDepthMask (flag : Bool) (g : GLContext) : GLContext :=
  { g with state := { g.state with depthMask := flag } }

/-- The call `glDepthFunc`. -/
def glDepthFunc (f : DepthFunc) (g : GLContext) : GLContext :=
  { g with state := { g.state with depthFunc := f } }

/-- The call `glColorMask`. -/
def glColorMask (r gr b a : Bool) (g : GLContext) : GLContext :=
  { g with state := { g.state with colorMask := (r, gr, b, a) } }

/-- The call `glDrawArrays`: recorded with the state current at the call. -/
def glDrawArrays (mode : Option GLenum) (first count : Int) (g : GLContext) : GLContext :=
  { g with draws := g.draws ++ [{ mode := mode, first := first, count := count, state := g.state }] }

/-- Modelled from the spec: the pass kinds `getMode()` returns (depth-mask,
blending, normalization); the enumeration is declared in `shader.h`, which is not
among the sources. -/
inductive PassKind where
  | DEPTH_MASK | BLENDING | NORMALIZATION
deriving DecidableEq, Repr

/-- The `switch` on the pass kind (lines 354-383). -/
def passSwitch (mode : Option GLenum) (numOfVertices : Int) (k : PassKind) (g : GLContext) : GLContext :=
  match k with
  | .DEPTH_MASK =>
    glDrawArrays mode 0 numOfVertices (glDepthMask true g)
  | .BLENDING =>
    glDrawArrays mode 0 numOfVertices
      (glDepthFunc .GL_LEQUAL (glDepthMask false (glEnable .GL_BLEND g)))
  | .NORMALIZATION => g

/-- The three calls that end every pass (lines 385-387). -/
def passReset (g : GLContext) : GLContext :=
  glDepthMask true (glDisable .GL_BLEND (glColorMask true true true true g))

/-- One iteration of the multi-pass loop (lines 346-389).  Compiling and binding
the pass shader and uploading uniforms leave the embedded state alone. -/
def runPass (mode : Option GLenum) (numOfVertices : Int) (g : GLContext) (k : PassKind) : GLContext :=
  passReset (passSwitch mode numOfVertices k g)

/-- Modelled from the spec: the state the render loop carries from frame to
frame, the global `MultipassEnabled` (declared in `globals.h`, which is not among
the sources) and the GL context. -/
structure RenderState where
  MultipassEnabled : Bool
  gl : GLContext
deriving DecidableEq, Repr

/-- The function `display` for a non-null `displayVAO` with the given primitive
mode and vertex count; `passes` lists the kinds of `getMultiPass()` of the active
shader. -/
def display (passes : List PassKind) (mode : Option GLenum) (numOfVertices : Int)
    (s : RenderState) : RenderState :=
  if !s.MultipassEnabled then
    { s with gl := glDrawArrays mode 0 numOfVertices
                    (glDepthFunc .GL_LESS (glEnable .GL_DEPTH_TEST s.gl)) }
  else
    { s with gl := passes.foldl (runPass mode numOfVertices) s.gl }

/-- The `P` key branch of `keyboardCallback` (lines 302-312): the flag is flipped;
recompiling and rebinding the shader leave the embedded state alone. -/
def keyboardCallbackP (s : RenderState) : RenderState :=
  { s with MultipassEnabled := !s.MultipassEnabled }

/-- A run of multi-pass frames, one pass list for each frame. -/
def displayFrames (mode : Option GLenum) (numOfVertices : Int) (s : RenderState)
    (frames : List (List PassKind)) : RenderState :=
  frames.foldl (fun st passes => display passes mode numOfVertices st) s

end Cube

namespace Cube

theorem pickWeights_range {K : Type} [LinearOrderedField K] (a b : K)
    (ha0 : 0 ≤ a) (ha1 : a ≤ 1) (hb0 : 0 ≤ b) (hb1 : b ≤ 1) :
    0 ≤ (pickWeights a b).1 ∧ (pickWeights a b).1 ≤ 1 ∧
    0 ≤ (pickWeights a b).2.1 ∧ (pickWeights a b).2.1 ≤ 1 ∧
    0 ≤ (pickWeights a b).2.2 ∧ (pickWeights a b).2.2 ≤ 1 ∧
    (pickWeights a b).1 + (pickWeights a b).2.1 + (pickWeights a b).2.2 = 1 := by
  unfold pickWeights
  by_cases h : a + b > 1
  · simp only [h, if_true]
    refine ⟨?_, ?_, ?_, ?_, ?_, ?_, ?_⟩ <;> linarith
  · simp only [h, if_false]
    have h' : a + b ≤ 1 := not_lt.mp h
    refine ⟨?_, ?_, ?_, ?_, ?_, ?_, ?_⟩ <;> linarith

/-- A convex combination of three values lies between their minimum and maximum. -/
theorem convex3_bounds {K : Type} [LinearOrderedField K] (a b c p q r : K)
    (ha : 0 ≤ a) (hb : 0 ≤ b) (hc : 0 ≤ c) (hs : a + b + c = 1) :
    min p (min q r) ≤ a * p + b * q + c * r ∧ a * p + b * q + c * r ≤ max p (max q r) := by
  have hm1 : min p (min q r) ≤ p := min_le_left _ _
  have hm2 : min p (min q r) ≤ q := le_trans (min_le_right _ _) (min_le_left _ _)
  have hm3 : min p (min q r) ≤ r := le_trans (min_le_right _ _) (min_le_right _ _)
  have hM1 : p ≤ max p (max q r) := le_max_left _ _
  have hM2 : q ≤ max p (max q r) := le_trans (le_max_left _ _) (le_max_right _ _)
  have hM3 : r ≤ max p (max q r) := le_trans (le_max_right _ _) (le_max_right _ _)
  constructor
  · have e : min p (min q r) = a * min p (min q r) + b * min p (min q r) + c * min p (min q r) := by
      rw [← add_mul, ← add_mul, hs, one_mul]
    rw [e]
    have := mul_le_mul_of_nonneg_left hm1 ha
    have := mul_le_mul_of_nonneg_left hm2 hb
    have := mul_le_mul_of_nonneg_left hm3 hc
    linarith
  · have e : max p (max q r) = a * max p (max q r) + b * max p (max q r) + c * max p (max q r) := by
      rw [← add_mul, ← add_mul, hs, one_mul]
    rw [e]
    have := mul_le_mul_of_nonneg_left hM1 ha
    have := mul_le_mul_of_nonneg_left hM2 hb
    have := mul_le_mul_of_nonneg_left hM3 hc
    linarith

/-- A GL context whose blend, depth-write and colour-write state are all away from
their defaults, with the depth comparison at its default `GL_LESS`. -/
def dirtyContext : GLContext :=
  { state :=
      { blend := true, depthTest := true, depthMask := false, depthFunc := .GL_LESS,
        colorMask := (false, false, false, false) }
    draws := [] }

/-- A GL context in the default state of a fresh context. -/
def freshContext : GLContext :=
  { state :=
      { blend := false, depthTest := false, depthMask := true, depthFunc := .GL_LESS,
        colorMask := (true, true, true, true) }
    draws := [] }

/-- The state every single-pass draw call is issued under when blending, depth
writes and the colour mask are at their defaults. -/
def singlePassState : GLState :=
  { blend := false, depthTest := true, depthMask := true, depthFunc := .GL_LESS,
    colorMask := (true, true, true, true) }

end Cube

namespace Cube

/-! ## Mesh sampling: shape of the output -/

/-- Prepending one block of `N` copies to a list made of `r` blocks of length `N`. -/
theorem blocks_cons {α : Type} (N r : Nat) (c : α) (cs : List α) (g : Nat → Option α)
    (hlen : cs.length = r * N)
    (h : ∀ t j, t < r → j < N → cs[t * N + j]? = g (t + 1))
    (h0 : g 0 = some c) :
    (List.replicate N c ++ cs).length = (r + 1) * N ∧
    ∀ t j, t < r + 1 → j < N → (List.replicate N c ++ cs)[t * N + j]? = g t := by
  constructor
  · simp [hlen, Nat.add_mul, Nat.add_comm]
  · intro t j ht hj
    cases t with
    | zero =>
      have hj' : j < (List.replicate N c).length := by simpa using hj
      rw [Nat.zero_mul, Nat.zero_add, List.getElem?_append_left hj', h0]
      simp [List.getElem?_replicate, hj]
    | succ t =>
      have hge : (List.replicate N c).length ≤ (t + 1) * N + j := by
        simp only [List.length_replicate, Nat.add_mul, Nat.one_mul]
        omega
      rw [List.getElem?_append_right hge]
      have e : (t + 1) * N + j - (List.replicate N c).length = t * N + j := by
        simp only [List.length_replicate, Nat.add_mul, Nat.one_mul]
        omega
      rw [e]
      exact h t j (Nat.lt_of_succ_lt_succ ht) hj

/-- The inner loop of `sampleMesh` appends `n` samples that all carry the first
vertex colour and the face normal of the triangle. -/
theorem sampleMeshInner_spec {K : Type} [LinearOrderedField K] (mesh : vao K) (i : Nat)
    (v1 v2 v3 c nrm : Vec3 K)
    (h1 : mesh.vertices[i * 3]? = some v1) (h2 : mesh.vertices[i * 3 + 1]? = some v2)
    (h3 : mesh.vertices[i * 3 + 2]? = some v3) (hc : mesh.colors[i * 3]? = some c)
    (hn : mesh.normals[i]? = some nrm) :
    ∀ (n : Nat) (out : vao K) (rng : RandSource K),
      ∃ out1 rng1, sampleMeshInner mesh i n (out, rng) = some (out1, rng1) ∧
        out1.vertices.length = out.vertices.length + n ∧
        out1.colors = out.colors ++ List.replicate n c ∧
        out1.normals = out.normals ++ List.replicate n nrm ∧
        out1.numOfVertices = out.numOfVertices + (n : Int) ∧
        out1.numOfTriangles = out.numOfTriangles ∧ out1.mode = out.mode := by
  intro n
  induction n with
  | zero =>
    intro out rng
    exact ⟨out, rng, rfl, by simp, by simp, by simp, by simp, rfl, rfl⟩
  | succ n ih =>
    intro out rng
    obtain ⟨out1, rng1, hrun, hv, hcol, hnor, hnum, htri, hmode⟩ :=
      ih { out with
            vertices := out.vertices ++ [(pickPoint v1 v2 v3 rng).1]
            colors := out.colors ++ [c]
            normals := out.normals ++ [nrm]
            numOfVertices := out.numOfVertices + 1 } (pickPoint v1 v2 v3 rng).2
    refine ⟨out1, rng1, ?_, ?_, ?_, ?_, ?_, htri, hmode⟩
    · simp only [sampleMeshInner, h1, h2, h3, hc, hn]
      exact hrun
    · simp only [List.length_append, List.length_singleton] at hv
      omega
    · rw [hcol, List.replicate_succ]
      simp
    · rw [hnor, List.replicate_succ]
      simp
    · rw [hnum]
      push_cast
      ring

/-- The outer loop of `sampleMesh`: `r` blocks of `N` samples are appended, the
block of triangle `i + t` carrying `colors[(i + t) * 3]` and `normals[i + t]`. -/
theorem sampleMeshOuter_spec {K : Type} [LinearOrderedField K] (N : Nat) (mesh : vao K) :
    ∀ (r i : Nat) (out : vao K) (rng : RandSource K),
      (i + r) * 3 ≤ mesh.vertices.length → (i + r) * 3 ≤ mesh.colors.length →
      i + r ≤ mesh.normals.length →
      ∃ out1 rng1 cs ns, sampleMeshOuter N mesh i r (out, rng) = some (out1, rng1) ∧
        out1.vertices.length = out.vertices.length + r * N ∧
        out1.colors = out.colors ++ cs ∧ cs.length = r * N ∧
        out1.normals = out.normals ++ ns ∧ ns.length = r * N ∧
        out1.numOfVertices = out.numOfVertices + ((r * N : Nat) : Int) ∧
        out1.numOfTriangles = out.numOfTriangles ∧ out1.mode = out.mode ∧
        (∀ t j, t < r → j < N → cs[t * N + j]? = mesh.colors[(i + t) * 3]?) ∧
        (∀ t j, t < r → j < N → ns[t * N + j]? = mesh.normals[i + t]?) := by
  intro r
  induction r with
  | zero =>
    intro i out rng _ _ _
    exact ⟨out, rng, [], [], rfl, by simp, by simp, by simp, by simp, by simp, by simp,
      rfl, rfl, by intro t j ht; omega, by intro t j ht; omega⟩
  | succ r ih =>
    intro i out rng hv hc hn
    have b1 : i * 3 < mesh.vertices.length := by omega
    have b2 : i * 3 + 1 < mesh.vertices.length := by omega
    have b3 : i * 3 + 2 < mesh.vertices.length := by omega
    have b4 : i * 3 < mesh.colors.length := by omega
    have b5 : i < mesh.normals.length := by omega
    obtain ⟨mid, rngm, hin, hmv, hmc, hmn, hmnum, hmtri, hmmode⟩ :=
      sampleMeshInner_spec mesh i _ _ _ _ _
        (List.getElem?_eq_getElem b1) (List.getElem?_eq_getElem b2)
        (List.getElem?_eq_getElem b3) (List.getElem?_eq_getElem b4)
        (List.getElem?_eq_getElem b5) N out rng
    obtain ⟨out1, rng1, cs, ns, hrun, hv1, hc1, hcl, hn1, hnl, hnum, htri, hmode, hci, hni⟩ :=
      ih (i + 1) mid rngm (by omega) (by omega) (by omega)
    have hcb := blocks_cons N r (mesh.colors[i * 3]) cs (fun t => mesh.colors[(i + t) * 3]?) hcl
      (by intro t j ht hj
          rw [hci t j ht hj]
          have e : i + 1 + t = i + (t + 1) := by omega
          simp only [e])
      (by simp [List.getElem?_eq_getElem b4])
    have hnb := blocks_cons N r (mesh.normals[i]) ns (fun t => mesh.normals[i + t]?) hnl
      (by intro t j ht hj
          rw [hni t j ht hj]
          have e : i + 1 + t = i + (t + 1) := by omega
          simp only [e])
      (by simp [List.getElem?_eq_getElem b5])
    refine ⟨out1, rng1, List.replicate N (mesh.colors[i * 3]) ++ cs,
      List.replicate N (mesh.normals[i]) ++ ns, ?_, ?_, ?_, hcb.1, ?_, hnb.1, ?_, ?_, ?_,
      hcb.2, hnb.2⟩
    · simp only [sampleMeshOuter, hin]
      exact hrun
    · rw [hv1, hmv, Nat.add_mul, Nat.one_mul]
      omega
    · rw [hc1, hmc, List.append_assoc]
    · rw [hn1, hmn, List.append_assoc]
    · rw [hnum, hmnum, Nat.add_mul, Nat.one_mul]
      push_cast
      ring
    · rw [htri, hmtri]
    · rw [hmode, hmmode]

/-- The whole of `sampleMesh` on a mesh whose arrays cover its `T` triangles. -/
theorem sampleMeshN_spec {K : Type} [LinearOrderedField K] (N T : Nat) (mesh : vao K)
    (rng : RandSource K) (hT : mesh.numOfTriangles = (T : Int))
    (hv : 3 * T ≤ mesh.vertices.length) (hc : 3 * T ≤ mesh.colors.length)
    (hn : T ≤ mesh.normals.length) :
    ∃ out rng1, sampleMeshN N mesh rng = some (out, rng1) ∧
      out.vertices.length = T * N ∧ out.colors.length = T * N ∧
      out.normals.length = T * N ∧ out.numOfVertices = ((T * N : Nat) : Int) ∧
      out.numOfTriangles = 0 ∧ out.mode = some GL_POINTS ∧
      (∀ t j, t < T → j < N → out.colors[t * N + j]? = mesh.colors[t * 3]?) ∧
      (∀ t j, t < T → j < N → out.normals[t * N + j]? = mesh.normals[t]?) := by
  obtain ⟨out1, rng1, cs, ns, hrun, hv1, hc1, hcl, hn1, hnl, hnum, htri, hmode, hci, hni⟩ :=
    sampleMeshOuter_spec N mesh T 0
      { vertices := [], colors := [], normals := [],
        numOfTriangles := 0, numOfVertices := 0, mode := none } rng
      (by omega) (by omega) (by omega)
  refine ⟨{ out1 with mode := some GL_POINTS }, rng1, ?_, ?_, ?_, ?_, ?_, ?_, rfl, ?_, ?_⟩
  · simp only [sampleMeshN, hT, Int.toNat_ofNat, hrun]
  · simpa using hv1
  · simp [hc1, hcl]
  · simp [hn1, hnl]
  · simp [hnum]
  · simp [htri]
  · intro t j ht hj
    have h := hci t j ht hj
    rw [Nat.zero_add] at h
    rw [← h]
    simp [hc1]
  · intro t j ht hj
    have h := hni t j ht hj
    rw [Nat.zero_add] at h
    rw [← h]
    simp [hn1]

end Cube

namespace Cube

/-- C1: on a mesh with `T` triangles whose vertex and colour arrays hold at least
`3 * T` entries and whose normal array holds at least `T`, `sampleMesh` taking `N`
samples for each triangle returns, for every random source, a cloud with exactly
`T * N` positions, as many normals and colours, and `numOfVertices = T * N`; with
`T = 0` the returned cloud is empty. -/
theorem sampleMesh_count {K : Type} [LinearOrderedField K] (N T : Nat) (mesh : vao K)
    (rng : RandSource K) (hT : mesh.numOfTriangles = (T : Int))
    (hv : 3 * T ≤ mesh.vertices.length) (hc : 3 * T ≤ mesh.colors.length)
    (hn : T ≤ mesh.normals.length) :
    ∃ out rng1, sampleMeshN N mesh rng = some (out, rng1) ∧
      out.vertices.length = T * N ∧ out.normals.length = T * N ∧
      out.colors.length = T * N ∧ out.numOfVertices = (T : Int) * (N : Int) ∧
      (T = 0 → out.vertices = [] ∧ out.normals = [] ∧ out.colors = [] ∧
        out.numOfVertices = 0) := by
  obtain ⟨out, rng1, hrun, hvl, hcl, hnl, hnum, -, -, -, -⟩ :=
    sampleMeshN_spec N T mesh rng hT hv hc hn
  refine ⟨out, rng1, hrun, hvl, hnl, hcl, ?_, ?_⟩
  · rw [hnum]
    push_cast
    ring
  · intro h0
    subst h0
    refine ⟨?_, ?_, ?_, ?_⟩
    · exact List.eq_nil_of_length_eq_zero (by simpa using hvl)
    · exact List.eq_nil_of_length_eq_zero (by simpa using hnl)
    · exact List.eq_nil_of_length_eq_zero (by simpa using hcl)
    · simpa using hnum

/-- Witness for C1: the one-triangle mesh sampled twice. -/
theorem sampleMesh_count_witness :
    demoMesh.numOfTriangles = ((1 : Nat) : Int) ∧ 3 * 1 ≤ demoMesh.vertices.length ∧
    3 * 1 ≤ demoMesh.colors.length ∧ 1 ≤ demoMesh.normals.length ∧
    ∃ out rng1, sampleMeshN 2 demoMesh demoSource = some (out, rng1) ∧
      out.vertices.length = 1 * 2 ∧ out.normals.length = 1 * 2 ∧
      out.colors.length = 1 * 2 ∧ out.numOfVertices = ((1 : Nat) : Int) * ((2 : Nat) : Int) ∧
      (1 = 0 → out.vertices = [] ∧ out.normals = [] ∧ out.colors = [] ∧
        out.numOfVertices = 0) :=
  ⟨by decide, by decide, by decide, by decide,
    sampleMesh_count 2 1 demoMesh demoSource (by decide) (by decide) (by decide) (by decide)⟩

/-- C4: on a mesh with `T` triangles, for every `i < T` and `j < N` the sample at
output index `i * N + j` has the colour `mesh.colors[3 * i]` (the first vertex
colour of triangle `i`) and the normal `mesh.normals[i]`, for every random source. -/
theorem sampleMesh_flat_attributes {K : Type} [LinearOrderedField K] (N T : Nat)
    (mesh : vao K) (rng : RandSource K) (hT : mesh.numOfTriangles = (T : Int))
    (hv : 3 * T ≤ mesh.vertices.length) (hc : 3 * T ≤ mesh.colors.length)
    (hn : T ≤ mesh.normals.length) (i j : Nat) (hi : i < T) (hj : j < N) :
    ∃ out rng1 c nrm, sampleMeshN N mesh rng = some (out, rng1) ∧
      mesh.colors[3 * i]? = some c ∧ mesh.normals[i]? = some nrm ∧
      out.colors[i * N + j]? = some c ∧ out.normals[i * N + j]? = some nrm := by
  obtain ⟨out, rng1, hrun, -, -, -, -, -, -, hci, hni⟩ :=
    sampleMeshN_spec N T mesh rng hT hv hc hn
  have b4 : 3 * i < mesh.colors.length := by omega
  have b5 : i < mesh.normals.length := by omega
  refine ⟨out, rng1, mesh.colors[3 * i], mesh.normals[i], hrun,
    List.getElem?_eq_getElem b4, List.getElem?_eq_getElem b5, ?_, ?_⟩
  · rw [hci i j hi hj, Nat.mul_comm i 3]
    exact List.getElem?_eq_getElem b4
  · rw [hni i j hi hj]
    exact List.getElem?_eq_getElem b5

/-- Witness for C4: the second sample of the one-triangle mesh. -/
theorem sampleMesh_flat_attributes_witness :
    ∃ out rng1 c nrm, sampleMeshN 2 demoMesh demoSource = some (out, rng1) ∧
      demoMesh.colors[3 * 0]? = some c ∧ demoMesh.normals[0]? = some nrm ∧
      out.colors[0 * 2 + 1]? = some c ∧ out.normals[0 * 2 + 1]? = some nrm :=
  sampleMesh_flat_attributes 2 1 demoMesh demoSource (by decide) (by decide) (by decide)
    (by decide) 0 1 (by decide) (by decide)

/-- C2: for draws `a`, `b` in `[0,1]` the weights `pickPoint` uses are the folded
pair (`1 - a`, `1 - b` when `a + b > 1`) and `c = 1 - a - b`; each weight lies in
`[0,1]`, they sum to `1`, and the returned point is the weighted combination of
the vertices and lies, coordinate by coordinate, between the minimum and the
maximum of the three vertices. -/
theorem pickPoint_in_triangle_box {K : Type} [LinearOrderedField K] (v1 v2 v3 : Vec3 K)
    (rng : RandSource K)
    (ha0 : 0 ≤ rng.draws rng.pos) (ha1 : rng.draws rng.pos ≤ 1)
    (hb0 : 0 ≤ rng.draws (rng.pos + 1)) (hb1 : rng.draws (rng.pos + 1) ≤ 1) :
    ∃ a b c : K,
      pickWeights (rng.draws rng.pos) (rng.draws (rng.pos + 1)) = (a, b, c) ∧
      (rng.draws rng.pos + rng.draws (rng.pos + 1) > 1 →
        a = 1 - rng.draws rng.pos ∧ b = 1 - rng.draws (rng.pos + 1)) ∧
      (¬ rng.draws rng.pos + rng.draws (rng.pos + 1) > 1 →
        a = rng.draws rng.pos ∧ b = rng.draws (rng.pos + 1)) ∧
      c = 1 - a - b ∧
      0 ≤ a ∧ a ≤ 1 ∧ 0 ≤ b ∧ b ≤ 1 ∧ 0 ≤ c ∧ c ≤ 1 ∧ a + b + c = 1 ∧
      (pickPoint v1 v2 v3 rng).1 =
        { x := a * v1.x + b * v2.x + c * v3.x
          y := a * v1.y + b * v2.y + c * v3.y
          z := a * v1.z + b * v2.z + c * v3.z } ∧
      min v1.x (min v2.x v3.x) ≤ (pickPoint v1 v2 v3 rng).1.x ∧
      (pickPoint v1 v2 v3 rng).1.x ≤ max v1.x (max v2.x v3.x) ∧
      min v1.y (min v2.y v3.y) ≤ (pickPoint v1 v2 v3 rng).1.y ∧
      (pickPoint v1 v2 v3 rng).1.y ≤ max v1.y (max v2.y v3.y) ∧
      min v1.z (min v2.z v3.z) ≤ (pickPoint v1 v2 v3 rng).1.z ∧
      (pickPoint v1 v2 v3 rng).1.z ≤ max v1.z (max v2.z v3.z) := by
  obtain ⟨r1, r2, r3, r4, r5, r6, r7⟩ :=
    pickWeights_range (rng.draws rng.pos) (rng.draws (rng.pos + 1)) ha0 ha1 hb0 hb1
  have hp : (pickPoint v1 v2 v3 rng).1 =
      { x := (pickWeights (rng.draws rng.pos) (rng.draws (rng.pos + 1))).1 * v1.x +
              (pickWeights (rng.draws rng.pos) (rng.draws (rng.pos + 1))).2.1 * v2.x +
              (pickWeights (rng.draws rng.pos) (rng.draws (rng.pos + 1))).2.2 * v3.x
        y := (pickWeights (rng.draws rng.pos) (rng.draws (rng.pos + 1))).1 * v1.y +
              (pickWeights (rng.draws rng.pos) (rng.draws (rng.pos + 1))).2.1 * v2.y +
              (pickWeights (rng.draws rng.pos) (rng.draws (rng.pos + 1))).2.2 * v3.y
        z := (pickWeights (rng.draws rng.pos) (rng.draws (rng.pos + 1))).1 * v1.z +
              (pickWeights (rng.draws rng.pos) (rng.draws (rng.pos + 1))).2.1 * v2.z +
              (pickWeights (rng.draws rng.pos) (rng.draws (rng.pos + 1))).2.2 * v3.z } := rfl
  refine ⟨_, _, _, rfl, ?_, ?_, ?_, r1, r2, r3, r4, r5, r6, r7, hp, ?_⟩
  · intro h
    simp [pickWeights, h]
  · intro h
    simp [pickWeights, h]
  · simp [pickWeights]
  · rw [hp]
    exact ⟨(convex3_bounds _ _ _ v1.x v2.x v3.x r1 r3 r5 r7).1,
      (convex3_bounds _ _ _ v1.x v2.x v3.x r1 r3 r5 r7).2,
      (convex3_bounds _ _ _ v1.y v2.y v3.y r1 r3 r5 r7).1,
      (convex3_bounds _ _ _ v1.y v2.y v3.y r1 r3 r5 r7).2,
      (convex3_bounds _ _ _ v1.z v2.z v3.z r1 r3 r5 r7).1,
      (convex3_bounds _ _ _ v1.z v2.z v3.z r1 r3 r5 r7).2⟩

/-- Witness for C2: the draws `3/4` and `1/2`, which are folded, on the triangle
`(0,0,0)`, `(1,0,0)`, `(0,1,0)`. -/
theorem pickPoint_in_triangle_box_witness :
    0 ≤ demoSource.draws demoSource.pos ∧ demoSource.draws demoSource.pos ≤ 1 ∧
    0 ≤ demoSource.draws (demoSource.pos + 1) ∧ demoSource.draws (demoSource.pos + 1) ≤ 1 ∧
    ∃ a b c : ℚ,
      pickWeights (demoSource.draws demoSource.pos) (demoSource.draws (demoSource.pos + 1)) = (a, b, c) ∧
      (demoSource.draws demoSource.pos + demoSource.draws (demoSource.pos + 1) > 1 →
        a = 1 - demoSource.draws demoSource.pos ∧ b = 1 - demoSource.draws (demoSource.pos + 1)) ∧
      (¬ demoSource.draws demoSource.pos + demoSource.draws (demoSource.pos + 1) > 1 →
        a = demoSource.draws demoSource.pos ∧ b = demoSource.draws (demoSource.pos + 1)) ∧
      c = 1 - a - b ∧
      0 ≤ a ∧ a ≤ 1 ∧ 0 ≤ b ∧ b ≤ 1 ∧ 0 ≤ c ∧ c ≤ 1 ∧ a + b + c = 1 ∧
      (pickPoint demoV1 demoV2 demoV3 demoSource).1 =
        { x := a * demoV1.x + b * demoV2.x + c * demoV3.x
          y := a * demoV1.y + b * demoV2.y + c * demoV3.y
          z := a * demoV1.z + b * demoV2.z + c * demoV3.z } ∧
      min demoV1.x (min demoV2.x demoV3.x) ≤ (pickPoint demoV1 demoV2 demoV3 demoSource).1.x ∧
      (pickPoint demoV1 demoV2 demoV3 demoSource).1.x ≤ max demoV1.x (max demoV2.x demoV3.x) ∧
      min demoV1.y (min demoV2.y demoV3.y) ≤ (pickPoint demoV1 demoV2 demoV3 demoSource).1.y ∧
      (pickPoint demoV1 demoV2 demoV3 demoSource).1.y ≤ max demoV1.y (max demoV2.y demoV3.y) ∧
      min demoV1.z (min demoV2.z demoV3.z) ≤ (pickPoint demoV1 demoV2 demoV3 demoSource).1.z ∧
      (pickPoint demoV1 demoV2 demoV3 demoSource).1.z ≤ max demoV1.z (max demoV2.z demoV3.z) :=
  have ha0 : 0 ≤ demoSource.draws demoSource.pos := by norm_num [demoSource]
  have ha1 : demoSource.draws demoSource.pos ≤ 1 := by norm_num [demoSource]
  have hb0 : 0 ≤ demoSource.draws (demoSource.pos + 1) := by norm_num [demoSource]
  have hb1 : demoSource.draws (demoSource.pos + 1) ≤ 1 := by norm_num [demoSource]
  ⟨ha0, ha1, hb0, hb1, pickPoint_in_triangle_box demoV1 demoV2 demoV3 demoSource ha0 ha1 hb0 hb1⟩

end Cube

namespace Cube

/-- Over the reals the loop test `sqrt(t) > 1` fails exactly when `t ≤ 1`. -/
theorem reject_iff (t : ℝ) : ¬ Real.sqrt t > 1 ↔ t ≤ 1 :=
  not_lt.trans Real.sqrt_le_one

/-- A value the rejection loop returns lies in the unit disk with `x`; the loop
only advances the random source. -/
theorem rejectLoop_accepts (x : ℝ) :
    ∀ (fuel : Nat) (y : ℝ) (rng : RandSource ℝ) (y1 : ℝ) (rng1 : RandSource ℝ),
      rejectLoop Real.sqrt x fuel y rng = some (y1, rng1) →
      x ^ 2 + y1 ^ 2 ≤ 1 ∧ rng1.draws = rng.draws := by
  intro fuel
  induction fuel with
  | zero =>
    intro y rng y1 rng1 h
    by_cases hc : Real.sqrt (x ^ 2 + y ^ 2) > 1
    · simp [rejectLoop, hc] at h
    · simp only [rejectLoop, hc, if_false, Option.some.injEq, Prod.mk.injEq] at h
      obtain ⟨rfl, rfl⟩ := h
      exact ⟨(reject_iff _).mp hc, rfl⟩
  | succ fuel ih =>
    intro y rng y1 rng1 h
    by_cases hc : Real.sqrt (x ^ 2 + y ^ 2) > 1
    · simp only [rejectLoop, hc, if_true] at h
      obtain ⟨a, b⟩ := ih _ _ _ _ h
      exact ⟨a, b⟩
    · simp only [rejectLoop, hc, if_false, Option.some.injEq, Prod.mk.injEq] at h
      obtain ⟨rfl, rfl⟩ := h
      exact ⟨(reject_iff _).mp hc, rfl⟩

/-- More fuel does not change a result the rejection loop already gives. -/
theorem rejectLoop_mono (x : ℝ) :
    ∀ (fuel m : Nat) (y : ℝ) (rng : RandSource ℝ) (r : ℝ × RandSource ℝ),
      rejectLoop Real.sqrt x fuel y rng = some r →
      rejectLoop Real.sqrt x (fuel + m) y rng = some r := by
  intro fuel
  induction fuel with
  | zero =>
    intro m y rng r h
    by_cases hc : Real.sqrt (x ^ 2 + y ^ 2) > 1
    · simp [rejectLoop, hc] at h
    · simp only [rejectLoop, hc, if_false] at h
      cases m with
      | zero => simp only [rejectLoop, hc, if_false, h]
      | succ m => simp only [Nat.zero_add, rejectLoop, hc, if_false, h]
  | succ fuel ih =>
    intro m y rng r h
    have e : fuel + 1 + m = (fuel + m) + 1 := by omega
    rw [e]
    by_cases hc : Real.sqrt (x ^ 2 + y ^ 2) > 1
    · simp only [rejectLoop, hc, if_true] at h ⊢
      exact ih m _ _ r h
    · simp only [rejectLoop, hc, if_false] at h ⊢
      exact h

/-- The rejection loop returns once a draw within the fuel is accepted. -/
theorem rejectLoop_returns (x : ℝ) (d : Nat → ℝ) :
    ∀ (k q : Nat) (y : ℝ),
      (x ^ 2 + y ^ 2 ≤ 1 ∨ ∃ j, j < k ∧ x ^ 2 + (d (q + j) * 2 - 1) ^ 2 ≤ 1) →
      ∃ r, rejectLoop Real.sqrt x k y { draws := d, pos := q } = some r := by
  intro k
  induction k with
  | zero =>
    intro q y h
    rcases h with h | ⟨j, hj, -⟩
    · exact ⟨(y, { draws := d, pos := q }), by simp only [rejectLoop, (reject_iff _).mpr h, if_false]⟩
    · omega
  | succ k ih =>
    intro q y h
    by_cases hc : Real.sqrt (x ^ 2 + y ^ 2) > 1
    · have hy : ¬ x ^ 2 + y ^ 2 ≤ 1 := fun hle => (reject_iff _).mpr hle hc
      rcases h with h | ⟨j, hj, hacc⟩
      · exact absurd h hy
      · simp only [rejectLoop, hc, if_true, RandSource.next]
        apply ih
        cases j with
        | zero => exact Or.inl (by simpa using hacc)
        | succ j =>
          refine Or.inr ⟨j, by omega, ?_⟩
          have e : q + 1 + j = q + (j + 1) := by omega
          rw [e]
          exact hacc
    · exact ⟨(y, { draws := d, pos := q }), by simp only [rejectLoop, hc, if_false]⟩


/-- Indexing past a two-element block put in front of a list. -/
theorem pair_append_getElem_opt {α : Type} (a b : α) (l : List α) (k : Nat) :
    ([a, b] ++ l)[k + 2]? = l[k]? := by
  simp

/-- More fuel does not change a result one iteration of `sampleSphere` already gives. -/
theorem sampleSphereStep_mono (fuel m : Nat) (st r : vao ℝ × RandSource ℝ)
    (h : sampleSphereStep Real.sqrt fuel st = some r) :
    sampleSphereStep Real.sqrt (fuel + m) st = some r := by
  simp only [sampleSphereStep, RandSource.next] at h ⊢
  split at h
  · exact absurd h (by simp)
  · rename_i y rng3 hr
    rw [rejectLoop_mono _ _ m _ _ _ hr]
    exact h

/-- More fuel does not change a result the `for` loop of `sampleSphere` already gives. -/
theorem sampleSphereLoop_mono (fuel m : Nat) :
    ∀ (n : Nat) (st r : vao ℝ × RandSource ℝ),
      sampleSphereLoop Real.sqrt fuel n st = some r →
      sampleSphereLoop Real.sqrt (fuel + m) n st = some r := by
  intro n
  induction n with
  | zero =>
    intro st r h
    simpa only [sampleSphereLoop] using h
  | succ n ih =>
    intro st r h
    simp only [sampleSphereLoop] at h ⊢
    split at h
    · rename_i st1 hstep
      rw [sampleSphereStep_mono fuel m st st1 hstep]
      exact ih st1 r h
    · exact absurd h (by simp)

/-- One iteration of `sampleSphere` returns when every first draw is followed by
an accepted second draw. -/
theorem sampleSphereStep_returns (d : Nat → ℝ)
    (hacc : ∀ p, ∃ k, (d p * 2 - 1) ^ 2 + (d (p + 1 + k) * 2 - 1) ^ 2 ≤ 1)
    (out : vao ℝ) (q : Nat) :
    ∃ fuel out1 q1,
      sampleSphereStep Real.sqrt fuel (out, { draws := d, pos := q }) =
        some (out1, { draws := d, pos := q1 }) := by
  obtain ⟨k, hk⟩ := hacc q
  have hret := rejectLoop_returns (d q * 2 - 1) d k (q + 1 + 1) (d (q + 1) * 2 - 1)
    (by
      cases k with
      | zero => exact Or.inl hk
      | succ k =>
        refine Or.inr ⟨k, Nat.lt_succ_self k, ?_⟩
        have e : q + 1 + 1 + k = q + 1 + (k + 1) := by omega
        rw [e]
        exact hk)
  obtain ⟨⟨y, rng3⟩, hr⟩ := hret
  have hd : rng3.draws = d := (rejectLoop_accepts _ _ _ _ _ _ hr).2
  obtain ⟨d3, q3⟩ := rng3
  simp only at hd
  subst hd
  refine ⟨k, ?_⟩
  simp only [sampleSphereStep, RandSource.next, hr, Option.some.injEq, Prod.mk.injEq]
  exact ⟨_, q3, rfl, rfl⟩

/-- The `for` loop of `sampleSphere` returns, with enough fuel, when every first
draw is followed by an accepted second draw. -/
theorem sampleSphereLoop_returns (d : Nat → ℝ)
    (hacc : ∀ p, ∃ k, (d p * 2 - 1) ^ 2 + (d (p + 1 + k) * 2 - 1) ^ 2 ≤ 1) :
    ∀ (n : Nat) (out : vao ℝ) (q : Nat),
      ∃ fuel r, sampleSphereLoop Real.sqrt fuel n (out, { draws := d, pos := q }) = some r := by
  intro n
  induction n with
  | zero =>
    intro out q
    exact ⟨0, _, rfl⟩
  | succ n ih =>
    intro out q
    obtain ⟨f1, mid, q1, hstep⟩ := sampleSphereStep_returns d hacc out q
    obtain ⟨f2, r, hloop⟩ := ih mid q1
    refine ⟨f1 + f2, r, ?_⟩
    simp only [sampleSphereLoop, sampleSphereStep_mono f1 f2 _ _ hstep]
    rw [Nat.add_comm]
    exact sampleSphereLoop_mono f2 f1 n _ r hloop


/-- The scenario of the spec evaluated: one iteration on the draws `x = 0.6`, `y = 0`. -/
theorem sampleSphere_scenario :
    ∃ out rng1, sampleSphereN Real.sqrt 0 1 (scenarioSource ℝ) = some (out, rng1) ∧
      out.vertices = [⟨0.6, 0, 0.8⟩, ⟨0.6, 0, -0.8⟩] ∧
      out.colors = [⟨0, 0, 1⟩, ⟨1, 0, 0⟩] ∧ out.numOfVertices = 2 := by
  have hx : ((0.8 : ℝ) * 2 - 1) = 0.6 := by norm_num
  have hy : ((0.5 : ℝ) * 2 - 1) = 0 := by norm_num
  have hrej : ¬ Real.sqrt ((0.6 : ℝ) ^ 2 + (0 : ℝ) ^ 2) > 1 :=
    (reject_iff _).mpr (by norm_num)
  have hz : Real.sqrt (1 - (0.6 : ℝ) ^ 2 - (0 : ℝ) ^ 2) = 0.8 := by
    rw [Real.sqrt_eq_iff_mul_self_eq (by norm_num) (by norm_num)]
    norm_num
  simp only [sampleSphereN, sampleSphereLoop, sampleSphereStep, RandSource.next,
    scenarioSource, if_true, Nat.zero_add, Nat.one_ne_zero, if_false, hx, hy, rejectLoop,
    hrej]
  refine ⟨_, _, rfl, ?_, ?_, ?_⟩
  · simp only [List.nil_append, hz]
  · rfl
  · simp


/-- Both points over an accepted disk sample lie on the unit sphere. -/
theorem lifted_on_sphere (x y : ℝ) (h : x ^ 2 + y ^ 2 ≤ 1) :
    x ^ 2 + y ^ 2 + Real.sqrt (1 - x ^ 2 - y ^ 2) ^ 2 = 1 ∧
    x ^ 2 + y ^ 2 + (-Real.sqrt (1 - x ^ 2 - y ^ 2)) ^ 2 = 1 := by
  have h0 : 0 ≤ 1 - x ^ 2 - y ^ 2 := by linarith
  have hs := Real.sq_sqrt h0
  constructor
  · rw [hs]; ring
  · rw [neg_sq, hs]; ring

/-- The rejection loop started on the candidate read at position `b` returns the
first accepted candidate: `k` candidates were rejected before it, and the source
has advanced past it. -/
theorem rejectLoop_trace (x : ℝ) (d : Nat → ℝ) :
    ∀ (fuel b : Nat) (y1 : ℝ) (rng1 : RandSource ℝ),
      rejectLoop Real.sqrt x fuel (d b * 2 - 1) { draws := d, pos := b + 1 } = some (y1, rng1) →
      ∃ k, y1 = d (b + k) * 2 - 1 ∧ rng1 = { draws := d, pos := b + k + 1 } ∧
        x ^ 2 + y1 ^ 2 ≤ 1 ∧
        ∀ j, j < k → ¬ x ^ 2 + (d (b + j) * 2 - 1) ^ 2 ≤ 1 := by
  intro fuel
  induction fuel with
  | zero =>
    intro b y1 rng1 h
    by_cases hc : Real.sqrt (x ^ 2 + (d b * 2 - 1) ^ 2) > 1
    · simp [rejectLoop, hc] at h
    · simp only [rejectLoop, hc, if_false, Option.some.injEq, Prod.mk.injEq] at h
      obtain ⟨rfl, rfl⟩ := h
      exact ⟨0, rfl, rfl, (reject_iff _).mp hc, by intro j hj; omega⟩
  | succ fuel ih =>
    intro b y1 rng1 h
    by_cases hc : Real.sqrt (x ^ 2 + (d b * 2 - 1) ^ 2) > 1
    · simp only [rejectLoop, hc, if_true, RandSource.next] at h
      obtain ⟨k, hy, hr, hacc, hrej⟩ := ih (b + 1) y1 rng1 h
      have e1 : b + 1 + k = b + (k + 1) := by omega
      refine ⟨k + 1, ?_, ?_, hacc, ?_⟩
      · rw [hy, e1]
      · rw [hr, e1]
      · intro j hj
        cases j with
        | zero => exact fun hle => (reject_iff _).mpr hle hc
        | succ j =>
          have e2 : b + (j + 1) = b + 1 + j := by omega
          rw [e2]
          exact hrej j (by omega)
    · simp only [rejectLoop, hc, if_false, Option.some.injEq, Prod.mk.injEq] at h
      obtain ⟨rfl, rfl⟩ := h
      exact ⟨0, rfl, rfl, (reject_iff _).mp hc, by intro j hj; omega⟩

/-- One successful iteration of `sampleSphere` started at position `q` of the
source: `x` is the draw at `q`, `y` the first accepted draw after it, `k` draws
were rejected in between, and exactly the two points over `(x, y)` are appended. -/
theorem sampleSphereStep_trace (fuel : Nat) (out : vao ℝ) (d : Nat → ℝ) (q : Nat)
    (out1 : vao ℝ) (rng1 : RandSource ℝ)
    (h : sampleSphereStep Real.sqrt fuel (out, { draws := d, pos := q }) = some (out1, rng1)) :
    ∃ (k : Nat) (x y : ℝ), x = d q * 2 - 1 ∧ y = d (q + 1 + k) * 2 - 1 ∧
      rng1 = { draws := d, pos := q + 2 + k } ∧
      (∀ j, j < k → ¬ x ^ 2 + (d (q + 1 + j) * 2 - 1) ^ 2 ≤ 1) ∧
      x ^ 2 + y ^ 2 ≤ 1 ∧
      out1.vertices = out.vertices ++
        [⟨x, y, Real.sqrt (1 - x ^ 2 - y ^ 2)⟩, ⟨x, y, -Real.sqrt (1 - x ^ 2 - y ^ 2)⟩] ∧
      out1.colors = out.colors ++ [⟨0, 0, 1⟩, ⟨1, 0, 0⟩] ∧
      out1.normals = out.normals ++
        [normalize Real.sqrt ⟨x, y, Real.sqrt (1 - x ^ 2 - y ^ 2)⟩,
          normalize Real.sqrt ⟨x, y, -Real.sqrt (1 - x ^ 2 - y ^ 2)⟩] ∧
      out1.numOfVertices = out.numOfVertices + 2 ∧
      out1.numOfTriangles = out.numOfTriangles ∧ out1.mode = out.mode := by
  simp only [sampleSphereStep, RandSource.next] at h
  split at h
  · exact absurd h (by simp)
  · rename_i y rng3 hr
    obtain ⟨k, hy, hr3, hacc, hrej⟩ := rejectLoop_trace _ d fuel (q + 1) y rng3 hr
    simp only [Option.some.injEq, Prod.mk.injEq] at h
    obtain ⟨rfl, rfl⟩ := h
    refine ⟨k, d q * 2 - 1, y, rfl, hy, ?_, hrej, hacc, rfl, rfl, rfl, rfl, rfl, rfl⟩
    rw [hr3]
    have e : q + 1 + k + 1 = q + 2 + k := by omega
    rw [e]

/-- A successful run of the `for` loop of `sampleSphere` from position `q`:
iteration `i` starts at position `p i` of the source, rejects `k i` draws, and
appends the two points over its accepted sample. -/
theorem sampleSphereLoop_trace (fuel : Nat) (d : Nat → ℝ) :
    ∀ (n : Nat) (out : vao ℝ) (q : Nat) (out1 : vao ℝ) (rng1 : RandSource ℝ),
      sampleSphereLoop Real.sqrt fuel n (out, { draws := d, pos := q }) = some (out1, rng1) →
      ∃ (p k : Nat → Nat) (vs cs ns : List (Vec3 ℝ)),
        p 0 = q ∧ rng1 = { draws := d, pos := p n } ∧
        out1.vertices = out.vertices ++ vs ∧ vs.length = 2 * n ∧
        out1.colors = out.colors ++ cs ∧ cs.length = 2 * n ∧
        out1.normals = out.normals ++ ns ∧ ns.length = 2 * n ∧
        out1.numOfVertices = out.numOfVertices + 2 * (n : Int) ∧
        out1.numOfTriangles = out.numOfTriangles ∧ out1.mode = out.mode ∧
        ∀ i, i < n → p (i + 1) = p i + 2 + k i ∧
          ∃ x y : ℝ, x = d (p i) * 2 - 1 ∧ y = d (p i + 1 + k i) * 2 - 1 ∧
            (∀ j, j < k i → ¬ x ^ 2 + (d (p i + 1 + j) * 2 - 1) ^ 2 ≤ 1) ∧
            x ^ 2 + y ^ 2 ≤ 1 ∧
            vs[2 * i]? = some ⟨x, y, Real.sqrt (1 - x ^ 2 - y ^ 2)⟩ ∧
            vs[2 * i + 1]? = some ⟨x, y, -Real.sqrt (1 - x ^ 2 - y ^ 2)⟩ ∧
            cs[2 * i]? = some ⟨0, 0, 1⟩ ∧ cs[2 * i + 1]? = some ⟨1, 0, 0⟩ ∧
            ns[2 * i]? = some (normalize Real.sqrt ⟨x, y, Real.sqrt (1 - x ^ 2 - y ^ 2)⟩) ∧
            ns[2 * i + 1]? =
              some (normalize Real.sqrt ⟨x, y, -Real.sqrt (1 - x ^ 2 - y ^ 2)⟩) := by
  intro n
  induction n with
  | zero =>
    intro out q out1 rng1 h
    simp only [sampleSphereLoop, Option.some.injEq, Prod.mk.injEq] at h
    obtain ⟨rfl, rfl⟩ := h
    exact ⟨fun _ => q, fun _ => 0, [], [], [], rfl, rfl, by simp, by simp, by simp, by simp,
      by simp, by simp, by simp, rfl, rfl, by intro i hi; omega⟩
  | succ n ih =>
    intro out q out1 rng1 h
    simp only [sampleSphereLoop] at h
    split at h
    · rename_i st1 hstep
      obtain ⟨mid, rngm⟩ := st1
      obtain ⟨k0, x, y, hx, hy, hrm, hrej, hacc, hv, hc, hn, hnum, htri, hmode⟩ :=
        sampleSphereStep_trace _ _ _ _ _ _ hstep
      subst hrm
      obtain ⟨p1, k1, vs, cs, ns, hp0, hr1, hv1, hvl, hc1, hcl, hn1, hnl, hnum1, htri1,
        hmode1, hidx⟩ := ih _ _ _ _ h
      refine ⟨fun i => if i = 0 then q else p1 (i - 1), fun i => if i = 0 then k0 else k1 (i - 1),
        [⟨x, y, Real.sqrt (1 - x ^ 2 - y ^ 2)⟩, ⟨x, y, -Real.sqrt (1 - x ^ 2 - y ^ 2)⟩] ++ vs,
        [⟨0, 0, 1⟩, ⟨1, 0, 0⟩] ++ cs,
        [normalize Real.sqrt ⟨x, y, Real.sqrt (1 - x ^ 2 - y ^ 2)⟩,
          normalize Real.sqrt ⟨x, y, -Real.sqrt (1 - x ^ 2 - y ^ 2)⟩] ++ ns,
        ?_, ?_, ?_, ?_, ?_, ?_, ?_, ?_, ?_, ?_, ?_, ?_⟩
      · simp
      · simp [hr1]
      · rw [hv1, hv, List.append_assoc]
      · simp only [List.length_append, List.length_cons, List.length_nil, hvl]
        omega
      · rw [hc1, hc, List.append_assoc]
      · simp only [List.length_append, List.length_cons, List.length_nil, hcl]
        omega
      · rw [hn1, hn, List.append_assoc]
      · simp only [List.length_append, List.length_cons, List.length_nil, hnl]
        omega
      · rw [hnum1, hnum]
        push_cast
        ring
      · rw [htri1, htri]
      · rw [hmode1, hmode]
      · intro i hi
        cases i with
        | zero =>
          refine ⟨by simp [hp0], x, y, by simpa using hx, by simpa using hy, ?_, hacc,
            by simp, by simp, by simp, by simp, by simp, by simp⟩
          intro j hj
          simpa using hrej j (by simpa using hj)
        | succ i =>
          obtain ⟨hp, x1, y1, hx1, hy1, hrej1, hacc1, e1, e2, e3, e4, e5, e6⟩ :=
            hidx i (by omega)
          have a1 : 2 * (i + 1) = (2 * i) + 2 := by omega
          have a2 : 2 * (i + 1) + 1 = (2 * i + 1) + 2 := by omega
          refine ⟨?_, x1, y1, ?_, ?_, ?_, hacc1, ?_, ?_, ?_, ?_, ?_, ?_⟩
          · simpa using hp
          · simpa using hx1
          · simpa using hy1
          · intro j hj
            simpa using hrej1 j (by simpa using hj)
          · rw [a1, pair_append_getElem_opt]; exact e1
          · rw [a2, pair_append_getElem_opt]; exact e2
          · rw [a1, pair_append_getElem_opt]; exact e3
          · rw [a2, pair_append_getElem_opt]; exact e4
          · rw [a1, pair_append_getElem_opt]; exact e5
          · rw [a2, pair_append_getElem_opt]; exact e6
    · exact absurd h (by simp)

/-- C3: whenever `sampleSphere` with `N` iterations returns, its cloud has exactly
`2 * N` positions, colours and normals and `numOfVertices = 2 * N`; the points at
indices `2 * i` and `2 * i + 1` are `(x, y, z)` coloured blue and `(x, y, -z)`
coloured red for a disk sample `x^2 + y^2 ≤ 1` with `z = sqrt(1 - x^2 - y^2)`; and
every point satisfies `x^2 + y^2 + z^2 = 1`.  The disk samples are those of the
random source: iteration `i` starts at position `p i` of the source (`p 0` is
where the source stood), `x` is `2 * draw - 1` for the draw at `p i`, the `k i`
draws that follow are rejected as `y`, the next one is accepted and is the `y`
emitted, and iteration `i + 1` starts right after it; the source ends at `p N`.
The normals are the normalized points.  The function does return, given enough
fuel, on every source where each first draw is followed by an accepted second
draw.  With `N = 1` and the draws `x = 0.6`, `y = 0` the cloud is `(0.6, 0, 0.8)`
blue and `(0.6, 0, -0.8)` red. -/
theorem sampleSphere_on_unit_sphere (N : Nat) (rng : RandSource ℝ) :
    (∀ fuel out rng1, sampleSphereN Real.sqrt fuel N rng = some (out, rng1) →
      out.vertices.length = 2 * N ∧ out.colors.length = 2 * N ∧
      out.normals.length = 2 * N ∧ out.numOfVertices = 2 * (N : Int) ∧
      (∀ i, i < N → ∃ x y : ℝ, x ^ 2 + y ^ 2 ≤ 1 ∧
        out.vertices[2 * i]? = some ⟨x, y, Real.sqrt (1 - x ^ 2 - y ^ 2)⟩ ∧
        out.vertices[2 * i + 1]? = some ⟨x, y, -Real.sqrt (1 - x ^ 2 - y ^ 2)⟩ ∧
        out.colors[2 * i]? = some ⟨0, 0, 1⟩ ∧ out.colors[2 * i + 1]? = some ⟨1, 0, 0⟩) ∧
      (∀ p, p ∈ out.vertices → p.x ^ 2 + p.y ^ 2 + p.z ^ 2 = 1) ∧
      out.numOfTriangles = 0 ∧ out.mode = none ∧ rng1.draws = rng.draws ∧
      (∃ p k : Nat → Nat, p 0 = rng.pos ∧ rng1.pos = p N ∧
        ∀ i, i < N → p (i + 1) = p i + 2 + k i ∧
          ∃ x y : ℝ, x = rng.draws (p i) * 2 - 1 ∧
            y = rng.draws (p i + 1 + k i) * 2 - 1 ∧
            (∀ j, j < k i → ¬ x ^ 2 + (rng.draws (p i + 1 + j) * 2 - 1) ^ 2 ≤ 1) ∧
            x ^ 2 + y ^ 2 ≤ 1 ∧
            out.vertices[2 * i]? = some ⟨x, y, Real.sqrt (1 - x ^ 2 - y ^ 2)⟩ ∧
            out.vertices[2 * i + 1]? = some ⟨x, y, -Real.sqrt (1 - x ^ 2 - y ^ 2)⟩ ∧
            out.colors[2 * i]? = some ⟨0, 0, 1⟩ ∧ out.colors[2 * i + 1]? = some ⟨1, 0, 0⟩ ∧
            out.normals[2 * i]? =
              some (normalize Real.sqrt ⟨x, y, Real.sqrt (1 - x ^ 2 - y ^ 2)⟩) ∧
            out.normals[2 * i + 1]? =
              some (normalize Real.sqrt ⟨x, y, -Real.sqrt (1 - x ^ 2 - y ^ 2)⟩))) ∧
    ((∀ p, ∃ k, (rng.draws p * 2 - 1) ^ 2 + (rng.draws (p + 1 + k) * 2 - 1) ^ 2 ≤ 1) →
      ∃ fuel out rng1, sampleSphereN Real.sqrt fuel N rng = some (out, rng1)) ∧
    (∃ out rng1, sampleSphereN Real.sqrt 0 1 (scenarioSource ℝ) = some (out, rng1) ∧
      out.vertices = [⟨0.6, 0, 0.8⟩, ⟨0.6, 0, -0.8⟩] ∧
      out.colors = [⟨0, 0, 1⟩, ⟨1, 0, 0⟩] ∧ out.numOfVertices = 2) := by
  refine ⟨?_, ?_, sampleSphere_scenario⟩
  · intro fuel out rng1 h
    obtain ⟨d, q⟩ := rng
    obtain ⟨p, k, vs, cs, ns, hp0, hr1, hv, hvl, hc, hcl, hn, hnl, hnum, htri, hmode, hidx⟩ :=
      sampleSphereLoop_trace fuel d N _ q _ _ h
    simp only [List.nil_append] at hv hc hn
    simp only [Int.zero_add] at hnum
    subst hv hc hn hr1
    have hpair : ∀ i, i < N → ∃ x y : ℝ, x ^ 2 + y ^ 2 ≤ 1 ∧
        out.vertices[2 * i]? = some ⟨x, y, Real.sqrt (1 - x ^ 2 - y ^ 2)⟩ ∧
        out.vertices[2 * i + 1]? = some ⟨x, y, -Real.sqrt (1 - x ^ 2 - y ^ 2)⟩ ∧
        out.colors[2 * i]? = some ⟨0, 0, 1⟩ ∧ out.colors[2 * i + 1]? = some ⟨1, 0, 0⟩ := by
      intro i hi
      obtain ⟨-, x, y, -, -, -, hacc, e1, e2, e3, e4, -, -⟩ := hidx i hi
      exact ⟨x, y, hacc, e1, e2, e3, e4⟩
    refine ⟨hvl, hcl, hnl, hnum, hpair, ?_, htri, hmode, rfl, p, k, hp0, rfl, hidx⟩
    intro pt hp
    obtain ⟨m, hm⟩ := List.mem_iff_getElem?.mp hp
    have hmlt : m < out.vertices.length := by
      by_contra hge
      rw [List.getElem?_eq_none (not_lt.mp hge)] at hm
      exact absurd hm (by simp)
    obtain ⟨x, y, hacc, e0, e1, -, -⟩ := hpair (m / 2) (by omega)
    rcases Nat.mod_two_eq_zero_or_one m with hmod | hmod
    · have ek : 2 * (m / 2) = m := by omega
      rw [ek, hm, Option.some.injEq] at e0
      subst e0
      exact (lifted_on_sphere x y hacc).1
    · have ek : 2 * (m / 2) + 1 = m := by omega
      rw [ek, hm, Option.some.injEq] at e1
      subst e1
      exact (lifted_on_sphere x y hacc).2
  · intro hacc
    obtain ⟨d, q⟩ := rng
    obtain ⟨fuel, ⟨out, rng1⟩, h⟩ := sampleSphereLoop_returns d hacc N
      { vertices := [], colors := [], normals := [],
        numOfTriangles := 0, numOfVertices := 0, mode := none } q
    exact ⟨fuel, out, rng1, h⟩

/-- Witness for C3: the scenario source is accepted at once, and the cloud it
gives has the two points over the sample `(0.6, 0)` read from the source, both on
the unit sphere; two draws are consumed. -/
theorem sampleSphere_on_unit_sphere_witness :
    (∀ p, ∃ k, ((scenarioSource ℝ).draws p * 2 - 1) ^ 2 +
        ((scenarioSource ℝ).draws (p + 1 + k) * 2 - 1) ^ 2 ≤ 1) ∧
    (∃ fuel out rng1,
      sampleSphereN Real.sqrt fuel 1 (scenarioSource ℝ) = some (out, rng1)) ∧
    (∃ out rng1, sampleSphereN Real.sqrt 0 1 (scenarioSource ℝ) = some (out, rng1) ∧
      out.vertices = [⟨0.6, 0, 0.8⟩, ⟨0.6, 0, -0.8⟩] ∧
      out.vertices.length = 2 * 1 ∧
      (∀ p, p ∈ out.vertices → p.x ^ 2 + p.y ^ 2 + p.z ^ 2 = 1) ∧
      rng1.draws = (scenarioSource ℝ).draws ∧
      ∃ p k : Nat → Nat, p 0 = (scenarioSource ℝ).pos ∧ rng1.pos = p 1 ∧
        p (0 + 1) = p 0 + 2 + k 0) := by
  have hacc : ∀ p, ∃ k, ((scenarioSource ℝ).draws p * 2 - 1) ^ 2 +
      ((scenarioSource ℝ).draws (p + 1 + k) * 2 - 1) ^ 2 ≤ 1 := by
    intro p
    refine ⟨0, ?_⟩
    by_cases hp : p = 0
    · simp only [scenarioSource, hp, if_true, Nat.zero_add, Nat.add_zero, Nat.one_ne_zero,
        if_false]
      norm_num
    · simp only [scenarioSource, hp, if_false, Nat.add_zero, Nat.succ_ne_zero]
      norm_num
  obtain ⟨out, rng1, hrun, hverts, -, -⟩ := sampleSphere_scenario
  obtain ⟨hlen, -, -, -, -, hsph, -, -, hdraws, p, k, hp0, hpN, hidx⟩ :=
    (sampleSphere_on_unit_sphere 1 (scenarioSource ℝ)).1 0 out rng1 hrun
  exact ⟨hacc, (sampleSphere_on_unit_sphere 1 (scenarioSource ℝ)).2.1 hacc,
    out, rng1, hrun, hverts, hlen, hsph, hdraws, p, k, hp0, hpN, (hidx 0 (by decide)).1⟩

end Cube

namespace Cube

/-! ## Orbit camera -/

/-- The two clamps of `mousePosCallback` leave the elevation within a quarter turn. -/
theorem clamp_elevation {K : Type} [LinearOrderedField K] (M_PI a : K) (hpi : 0 ≤ M_PI) :
    -M_PI / 2 ≤ GREATER_THAN (LESS_THAN a (M_PI / 2.0)) (-M_PI / 2.0) ∧
    GREATER_THAN (LESS_THAN a (M_PI / 2.0)) (-M_PI / 2.0) ≤ M_PI / 2 := by
  have e : (2.0 : K) = 2 := by norm_num
  rw [e]
  unfold GREATER_THAN LESS_THAN
  split_ifs <;> constructor <;> linarith

/-- The clamp of `scrollCallback` keeps the distance at or above `0.001`. -/
theorem clamp_distance {K : Type} [LinearOrderedField K] (d : K) :
    (0.001 : K) ≤ GREATER_THAN d 0.001 := by
  unfold GREATER_THAN
  split_ifs with h
  · exact le_refl _
  · exact not_lt.mp h

/-- Every camera callback preserves the camera predicate. -/
theorem cameraStep_ok {K : Type} [LinearOrderedField K] (sinf cosf : K → K) (M_PI : K)
    (hpi : 0 ≤ M_PI) (c : Camera K) (e : CameraEvent K) (h : CameraOk M_PI c) :
    CameraOk M_PI (cameraStep sinf cosf M_PI c e) := by
  obtain ⟨h1, h2, h3⟩ := h
  cases e with
  | mousePos x y =>
    simp only [cameraStep, mousePosCallback]
    split_ifs with hb
    · exact ⟨(clamp_elevation M_PI _ hpi).1, (clamp_elevation M_PI _ hpi).2, h3⟩
    · exact ⟨h1, h2, h3⟩
  | mouseButton btn action =>
    simp only [cameraStep, mouseCallback]
    split_ifs <;> exact ⟨h1, h2, h3⟩
  | scroll xoffset yoffset =>
    refine ⟨h1, h2, ?_⟩
    have hc := clamp_distance (c.cameraDistance - yoffset)
    have hpos : (0 : K) < 0.001 := by norm_num
    exact lt_of_lt_of_le hpos hc
  | reset =>
    refine ⟨?_, ?_, h3⟩
    · show -M_PI / 2 ≤ (0 : K)
      linarith
    · show (0 : K) ≤ M_PI / 2
      linarith

/-- Every camera callback keeps a distance that is at or above `0.001` there. -/
theorem cameraStep_floor {K : Type} [LinearOrderedField K] (sinf cosf : K → K) (M_PI : K)
    (c : Camera K) (e : CameraEvent K) (h : (0.001 : K) ≤ c.cameraDistance) :
    (0.001 : K) ≤ (cameraStep sinf cosf M_PI c e).cameraDistance := by
  cases e with
  | mousePos x y =>
    simp only [cameraStep, mousePosCallback]
    split_ifs <;> exact h
  | mouseButton btn action =>
    simp only [cameraStep, mouseCallback]
    split_ifs <;> exact h
  | scroll xoffset yoffset => exact clamp_distance _
  | reset => exact h

/-- A run of camera events preserves the camera predicate. -/
theorem cameraRun_ok {K : Type} [LinearOrderedField K] (sinf cosf : K → K) (M_PI : K)
    (hpi : 0 ≤ M_PI) (evs : List (CameraEvent K)) :
    ∀ c : Camera K, CameraOk M_PI c → CameraOk M_PI (cameraRun sinf cosf M_PI c evs) := by
  induction evs with
  | nil => intro c h; exact h
  | cons e rest ih =>
    intro c h
    exact ih _ (cameraStep_ok sinf cosf M_PI hpi c e h)

/-- A run of camera events keeps a distance that is at or above `0.001`. -/
theorem cameraRun_floor {K : Type} [LinearOrderedField K] (sinf cosf : K → K) (M_PI : K)
    (evs : List (CameraEvent K)) :
    ∀ c : Camera K, (0.001 : K) ≤ c.cameraDistance →
      (0.001 : K) ≤ (cameraRun sinf cosf M_PI c evs).cameraDistance := by
  induction evs with
  | nil => intro c h; exact h
  | cons e rest ih =>
    intro c h
    exact ih _ (cameraStep_floor sinf cosf M_PI c e h)

/-- A run of camera events that contains a scroll ends at or above `0.001`. -/
theorem cameraRun_scrolled {K : Type} [LinearOrderedField K] (sinf cosf : K → K) (M_PI : K)
    (evs : List (CameraEvent K)) :
    ∀ c : Camera K, evs.any CameraEvent.isScroll = true →
      (0.001 : K) ≤ (cameraRun sinf cosf M_PI c evs).cameraDistance := by
  induction evs with
  | nil => intro c h; simp at h
  | cons e rest ih =>
    intro c h
    rw [List.any_cons, Bool.or_eq_true] at h
    rcases h with h | h
    · cases e with
      | scroll xoffset yoffset =>
        exact cameraRun_floor sinf cosf M_PI rest _ (clamp_distance _)
      | mousePos x y => simp [CameraEvent.isScroll] at h
      | mouseButton btn action => simp [CameraEvent.isScroll] at h
      | reset => simp [CameraEvent.isScroll] at h
    · exact ih _ h

end Cube

namespace Cube

/-- C5, as stated, fails: a camera at distance `0.0005` satisfies the predicate,
and after a reset its distance is still below `0.001`. -/
theorem camera_floor_counterexample :
    CameraOk Real.pi (nearCamera ℝ) ∧
    ¬ (0.001 : ℝ) ≤
      (cameraRun Real.sin Real.cos Real.pi (nearCamera ℝ) [CameraEvent.reset]).cameraDistance := by
  constructor
  · refine ⟨?_, ?_, ?_⟩
    · show -Real.pi / 2 ≤ (0 : ℝ)
      linarith [Real.pi_pos]
    · show (0 : ℝ) ≤ Real.pi / 2
      linarith [Real.pi_pos]
    · show (0 : ℝ) < 0.0005
      norm_num
  · show ¬ (0.001 : ℝ) ≤ 0.0005
    norm_num

/-- C5, amended: from a state with elevation in `[-pi/2, pi/2]` and positive
distance, every finite sequence of pointer moves, button changes, scrolls and
resets ends with the elevation in `[-pi/2, pi/2]` and a positive distance; the
distance is at least `0.001` when it was so at the start or the sequence contains
a scroll.  A drag with the button held pins the elevation to the nearer bound. -/
theorem camera_invariant {K : Type} [LinearOrderedField K] (sinf cosf : K → K) (M_PI : K)
    (hpi : 0 ≤ M_PI) (c : Camera K) (evs : List (CameraEvent K)) (h : CameraOk M_PI c) :
    -M_PI / 2 ≤ (cameraRun sinf cosf M_PI c evs).cameraAngleY ∧
    (cameraRun sinf cosf M_PI c evs).cameraAngleY ≤ M_PI / 2 ∧
    0 < (cameraRun sinf cosf M_PI c evs).cameraDistance ∧
    ((0.001 ≤ c.cameraDistance ∨ evs.any CameraEvent.isScroll = true) →
      0.001 ≤ (cameraRun sinf cosf M_PI c evs).cameraDistance) ∧
    (∀ x y : K, c.leftBtnPress = true →
      (mousePosCallback sinf cosf M_PI c x y).cameraAngleY =
        max (-M_PI / 2) (min (M_PI / 2)
          (c.cameraAngleY + (c.lastMouseY - y) * 2 * M_PI / 1000))) := by
  obtain ⟨r1, r2, r3⟩ := cameraRun_ok sinf cosf M_PI hpi evs c h
  refine ⟨r1, r2, r3, ?_, ?_⟩
  · intro hor
    rcases hor with h0 | hs
    · exact cameraRun_floor sinf cosf M_PI evs c h0
    · exact cameraRun_scrolled sinf cosf M_PI evs c hs
  · intro x y hb
    have e2 : (2.0 : K) = 2 := by norm_num
    have e3 : (1000.0 : K) = 1000 := by norm_num
    simp only [mousePosCallback, hb, if_true, updateCameraPosition, GREATER_THAN, LESS_THAN,
      e2, e3]
    have hle : -M_PI / 2 ≤ M_PI / 2 := by linarith
    split_ifs with h1 h2 h3
    · exact absurd h2 (not_lt.mpr hle)
    · rw [min_eq_left (le_of_lt h1), max_eq_right hle]
    · rw [min_eq_right (not_lt.mp h1), max_eq_left (le_of_lt h3)]
    · rw [min_eq_right (not_lt.mp h1), max_eq_right (not_lt.mp h3)]

/-- Witness for C5: a drag far upwards, a zoom past the origin and a reset. -/
theorem camera_invariant_witness :
    0 ≤ Real.pi ∧ CameraOk Real.pi (demoCamera ℝ) ∧
    -Real.pi / 2 ≤
      (cameraRun Real.sin Real.cos Real.pi (demoCamera ℝ) (demoEvents ℝ)).cameraAngleY ∧
    (cameraRun Real.sin Real.cos Real.pi (demoCamera ℝ) (demoEvents ℝ)).cameraAngleY ≤
      Real.pi / 2 ∧
    0 < (cameraRun Real.sin Real.cos Real.pi (demoCamera ℝ) (demoEvents ℝ)).cameraDistance ∧
    0.001 ≤ (cameraRun Real.sin Real.cos Real.pi (demoCamera ℝ) (demoEvents ℝ)).cameraDistance := by
  have hpi : 0 ≤ Real.pi := Real.pi_pos.le
  have hok : CameraOk Real.pi (demoCamera ℝ) := by
    refine ⟨?_, ?_, ?_⟩
    · show -Real.pi / 2 ≤ (0 : ℝ)
      linarith
    · show (0 : ℝ) ≤ Real.pi / 2
      linarith
    · show (0 : ℝ) < 3
      norm_num
  have hw := camera_invariant Real.sin Real.cos Real.pi hpi (demoCamera ℝ) (demoEvents ℝ) hok
  exact ⟨hpi, hok, hw.1, hw.2.1, hw.2.2.1, hw.2.2.2.1 (Or.inr (by decide))⟩

/-- C10: `resetCameraPosition` sets azimuth and elevation to `0`, leaves the
distance `d` as it was, and leaves the eye at the orbit formula
`d * (-sin(az)cos(el), -sin(el), -cos(az)cos(el))` taken at `az = 0`, `el = 0`,
which is `(0, 0, -d)`. -/
theorem reset_eye_position (c : Camera ℝ) :
    (resetCameraPosition Real.sin Real.cos c).cameraAngleX = 0 ∧
    (resetCameraPosition Real.sin Real.cos c).cameraAngleY = 0 ∧
    (resetCameraPosition Real.sin Real.cos c).cameraDistance = c.cameraDistance ∧
    (resetCameraPosition Real.sin Real.cos c).cameraEye =
      { x := c.cameraDistance * (-Real.sin 0 * Real.cos 0)
        y := c.cameraDistance * (-Real.sin 0)
        z := c.cameraDistance * (-Real.cos 0 * Real.cos 0) } ∧
    (resetCameraPosition Real.sin Real.cos c).cameraEye = ⟨0, 0, -c.cameraDistance⟩ := by
  refine ⟨rfl, rfl, rfl, ?_, ?_⟩
  · simp [resetCameraPosition, updateCameraPosition]
  · simp [resetCameraPosition, updateCameraPosition]

/-! ## Projection uniforms -/

/-- The half field of view of `updateProjMatrix`, in radians, lies strictly
between `0` and a quarter turn. -/
theorem half_fov_range :
    0 < (0.5 : ℝ) * DEG_TO_RAD Real.pi 53.13 ∧
    (0.5 : ℝ) * DEG_TO_RAD Real.pi 53.13 < Real.pi / 2 := by
  have hpi := Real.pi_pos
  have e : (0.5 : ℝ) * DEG_TO_RAD Real.pi 53.13 = Real.pi * (5313 / 36000) := by
    unfold DEG_TO_RAD
    norm_num
    ring
  rw [e]
  constructor
  · positivity
  · nlinarith

/-- C8: on every window size `updateProjMatrix` uploads to the `top` uniform the
negated extent `-(tan(fovy/2) * near)`, which is negative, and to the `bottom`
uniform the extent itself, which is positive; `left` and `right` are
`-top * ratio` and `top * ratio` for the positive extent `top`. -/
theorem updateProjMatrix_top_negative (w h : Int) :
    (updateProjMatrix Real.tan Real.pi w h).topFrustum =
      -(Real.tan (0.5 * DEG_TO_RAD Real.pi 53.13) * 0.1) ∧
    (updateProjMatrix Real.tan Real.pi w h).bottomFrustum =
      Real.tan (0.5 * DEG_TO_RAD Real.pi 53.13) * 0.1 ∧
    (updateProjMatrix Real.tan Real.pi w h).topFrustum < 0 ∧
    0 < (updateProjMatrix Real.tan Real.pi w h).bottomFrustum ∧
    (updateProjMatrix Real.tan Real.pi w h).leftFrustum =
      -(Real.tan (0.5 * DEG_TO_RAD Real.pi 53.13) * 0.1) *
        (((w : ℝ)) / (((if h = 0 then 1 else h : Int) : ℝ))) ∧
    (updateProjMatrix Real.tan Real.pi w h).rightFrustum =
      Real.tan (0.5 * DEG_TO_RAD Real.pi 53.13) * 0.1 *
        (((w : ℝ)) / (((if h = 0 then 1 else h : Int) : ℝ))) := by
  have htan : 0 < Real.tan (0.5 * DEG_TO_RAD Real.pi 53.13) :=
    Real.tan_pos_of_pos_of_lt_pi_div_two half_fov_range.1 half_fov_range.2
  have hpos : 0 < Real.tan (0.5 * DEG_TO_RAD Real.pi 53.13) * 0.1 := by positivity
  refine ⟨rfl, rfl, ?_, hpos, ?_, ?_⟩
  · show -(Real.tan (0.5 * DEG_TO_RAD Real.pi 53.13) * 0.1) < 0
    linarith
  · simp only [updateProjMatrix]
    norm_num
  · simp only [updateProjMatrix]
    norm_num

end Cube

namespace Cube

/-! ## The render passes -/

/-- The reset that ends a pass leaves blending off, depth writes on and the colour
mask full, whatever the pass did. -/
theorem runPass_defaults (mode : Option GLenum) (n : Int) (g : GLContext) (k : PassKind) :
    (runPass mode n g k).state.blend = false ∧
    (runPass mode n g k).state.depthMask = true ∧
    (runPass mode n g k).state.colorMask = (true, true, true, true) := by
  cases k <;> exact ⟨rfl, rfl, rfl⟩

/-- A run of passes keeps blending off, depth writes on and the colour mask full
when it starts so. -/
theorem passes_keep_defaults (mode : Option GLenum) (n : Int) (passes : List PassKind) :
    ∀ g : GLContext,
      g.state.blend = false → g.state.depthMask = true →
      g.state.colorMask = (true, true, true, true) →
      (passes.foldl (runPass mode n) g).state.blend = false ∧
      (passes.foldl (runPass mode n) g).state.depthMask = true ∧
      (passes.foldl (runPass mode n) g).state.colorMask = (true, true, true, true) := by
  induction passes with
  | nil => intro g h1 h2 h3; exact ⟨h1, h2, h3⟩
  | cons k rest ih =>
    intro g _ _ _
    obtain ⟨a, b, c⟩ := runPass_defaults mode n g k
    exact ih _ a b c

/-- A run of multi-pass frames stays in multi-pass mode and keeps blending off,
depth writes on and the colour mask full when it starts so. -/
theorem frames_keep_defaults (mode : Option GLenum) (n : Int)
    (frames : List (List PassKind)) :
    ∀ s : RenderState, s.MultipassEnabled = true →
      s.gl.state.blend = false → s.gl.state.depthMask = true →
      s.gl.state.colorMask = (true, true, true, true) →
      (displayFrames mode n s frames).MultipassEnabled = true ∧
      (displayFrames mode n s frames).gl.state.blend = false ∧
      (displayFrames mode n s frames).gl.state.depthMask = true ∧
      (displayFrames mode n s frames).gl.state.colorMask = (true, true, true, true) := by
  induction frames with
  | nil => intro s h0 h1 h2 h3; exact ⟨h0, h1, h2, h3⟩
  | cons passes rest ih =>
    intro s h0 h1 h2 h3
    obtain ⟨a, b, c⟩ := passes_keep_defaults mode n passes s.gl h1 h2 h3
    have hd : display passes mode n s =
        { s with gl := passes.foldl (runPass mode n) s.gl } := by
      simp [display, h0]
    have hstep : displayFrames mode n s (passes :: rest) =
        displayFrames mode n (display passes mode n s) rest := rfl
    rw [hstep, hd]
    exact ih _ h0 a b c

/-- C6: in multi-pass mode, after `display` has run a non-empty pass list, from
any entry state, blending is disabled, depth writes are enabled and the colour
write mask is fully enabled. -/
theorem multipass_frame_resets (passes : List PassKind) (hne : passes ≠ [])
    (mode : Option GLenum) (n : Int) (s : RenderState) (hm : s.MultipassEnabled = true) :
    (display passes mode n s).gl.state.blend = false ∧
    (display passes mode n s).gl.state.depthMask = true ∧
    (display passes mode n s).gl.state.colorMask = (true, true, true, true) := by
  obtain ⟨front, k, rfl⟩ : ∃ front k, passes = front ++ [k] := by
    rcases List.eq_nil_or_concat passes with h | ⟨front, k, h⟩
    · exact absurd h hne
    · exact ⟨front, k, by simpa using h⟩
  have hd : display (front ++ [k]) mode n s =
      { s with gl := runPass mode n (front.foldl (runPass mode n) s.gl) k } := by
    simp [display, hm, List.foldl_append]
  rw [hd]
  exact runPass_defaults mode n _ k

/-- Witness for C6: the pass list `[DepthMask, Blending]` run from a state with
blending on, depth writes off and the colour mask cleared. -/
theorem multipass_frame_resets_witness :
    [PassKind.DEPTH_MASK, PassKind.BLENDING] ≠ [] ∧
    (display [PassKind.DEPTH_MASK, PassKind.BLENDING] (some GL_POINTS) 500
      ⟨true, dirtyContext⟩).gl.state.blend = false ∧
    (display [PassKind.DEPTH_MASK, PassKind.BLENDING] (some GL_POINTS) 500
      ⟨true, dirtyContext⟩).gl.state.depthMask = true ∧
    (display [PassKind.DEPTH_MASK, PassKind.BLENDING] (some GL_POINTS) 500
      ⟨true, dirtyContext⟩).gl.state.colorMask = (true, true, true, true) :=
  ⟨by decide,
    multipass_frame_resets [PassKind.DEPTH_MASK, PassKind.BLENDING] (by decide)
      (some GL_POINTS) 500 ⟨true, dirtyContext⟩ rfl⟩

/-- C7 fails on the code: from the fresh state a `DepthMask` pass with its reset
leaves the depth comparison at `GL_LESS`, a `Blending` pass with its reset leaves it
at `GL_LEQUAL`, so the two states differ; blend, depth-write and colour mask agree.
In the pass list `[Blending, DepthMask]` the second draw is issued under `GL_LEQUAL`. -/
theorem blending_pass_leaks_depthFunc :
    (runPass (some GL_POINTS) 500 freshContext PassKind.DEPTH_MASK).state.depthFunc
      = DepthFunc.GL_LESS ∧
    (runPass (some GL_POINTS) 500 freshContext PassKind.BLENDING).state.depthFunc
      = DepthFunc.GL_LEQUAL ∧
    (runPass (some GL_POINTS) 500 freshContext PassKind.DEPTH_MASK).state ≠
      (runPass (some GL_POINTS) 500 freshContext PassKind.BLENDING).state ∧
    (display [PassKind.BLENDING, PassKind.DEPTH_MASK] (some GL_POINTS) 500
        ⟨true, freshContext⟩).gl.draws.map (fun d => d.state.depthFunc)
      = [DepthFunc.GL_LEQUAL, DepthFunc.GL_LEQUAL] ∧
    (display [PassKind.DEPTH_MASK] (some GL_POINTS) 500
        ⟨true, freshContext⟩).gl.draws.map (fun d => d.state.depthFunc)
      = [DepthFunc.GL_LESS] := by
  refine ⟨rfl, rfl, by decide, rfl, rfl⟩

/-- C9: from single-pass mode with blending off, depth writes on and the colour
mask full, pressing `P`, rendering any number of multi-pass frames with any pass
lists, and pressing `P` again leaves the flag at single-pass, and the next frame
issues exactly one draw call, under depth test on, comparison `GL_LESS`, blending
off, depth writes on and full colour mask: the same call a single-pass frame
issues when `P` was never pressed. -/
theorem toggle_roundtrip_single_pass (g : GLContext) (hb : g.state.blend = false)
    (hd : g.state.depthMask = true) (hc : g.state.colorMask = (true, true, true, true))
    (frames : List (List PassKind)) (p1 p2 : List PassKind) (mode : Option GLenum)
    (n : Int) :
    (keyboardCallbackP (displayFrames mode n (keyboardCallbackP ⟨false, g⟩) frames)).MultipassEnabled
      = false ∧
    (display p1 mode n
        (keyboardCallbackP (displayFrames mode n (keyboardCallbackP ⟨false, g⟩) frames))).gl.draws
      = (keyboardCallbackP (displayFrames mode n (keyboardCallbackP ⟨false, g⟩) frames)).gl.draws
        ++ [{ mode := mode, first := 0, count := n, state := singlePassState }] ∧
    (display p2 mode n ⟨false, g⟩).gl.draws
      = g.draws ++ [{ mode := mode, first := 0, count := n, state := singlePassState }] := by
  obtain ⟨h0, h1, h2, h3⟩ :=
    frames_keep_defaults mode n frames (keyboardCallbackP ⟨false, g⟩) rfl hb hd hc
  have hflag : (keyboardCallbackP
      (displayFrames mode n (keyboardCallbackP ⟨false, g⟩) frames)).MultipassEnabled = false := by
    show (!(displayFrames mode n (keyboardCallbackP ⟨false, g⟩) frames).MultipassEnabled) = false
    rw [h0]
    rfl
  have hdraw : ∀ (p : List PassKind) (s : RenderState), s.MultipassEnabled = false →
      s.gl.state.blend = false → s.gl.state.depthMask = true →
      s.gl.state.colorMask = (true, true, true, true) →
      (display p mode n s).gl.draws =
        s.gl.draws ++ [{ mode := mode, first := 0, count := n, state := singlePassState }] := by
    intro p s hs e1 e2 e3
    simp only [display, hs, Bool.not_false, if_true, glDrawArrays, glDepthFunc, glEnable,
      singlePassState, e1, e2, e3]
  exact ⟨hflag, hdraw p1 _ hflag h1 h2 h3, hdraw p2 ⟨false, g⟩ rfl hb hd hc⟩

/-- Witness for C9: two multi-pass frames between the two presses of `P`. -/
theorem toggle_roundtrip_single_pass_witness :
    freshContext.state.blend = false ∧ freshContext.state.depthMask = true ∧
    freshContext.state.colorMask = (true, true, true, true) ∧
    (display [] (some GL_POINTS) 500
        (keyboardCallbackP (displayFrames (some GL_POINTS) 500
          (keyboardCallbackP ⟨false, freshContext⟩)
          [[PassKind.DEPTH_MASK, PassKind.BLENDING], [PassKind.NORMALIZATION]]))).gl.draws
      = (keyboardCallbackP (displayFrames (some GL_POINTS) 500
          (keyboardCallbackP ⟨false, freshContext⟩)
          [[PassKind.DEPTH_MASK, PassKind.BLENDING], [PassKind.NORMALIZATION]])).gl.draws
        ++ [{ mode := some GL_POINTS, first := 0, count := 500, state := singlePassState }] :=
  ⟨rfl, rfl, rfl,
    (toggle_roundtrip_single_pass freshContext rfl rfl rfl
      [[PassKind.DEPTH_MASK, PassKind.BLENDING], [PassKind.NORMALIZATION]] [] []
      (some GL_POINTS) 500).2.1⟩

end Cube
